import Mathlib

/-!
# Kibio: the layer stack, the gesture state machine, the paths and the persistence of `Project`

A shallow embedding of `src/Project.cpp`, of the two path functions of
`src/SimpleApp.h` and of the button lookup of `src/UserInterface.cpp`.

* A `std::shared_ptr<Layer>` is a `LayerPtr`: `none` is the empty pointer and
  `some a` refers to the `Layer` object stored at address `a` of the heap of the
  `Project` state.
* `Layer` is a collaborator whose code is not part of `Project.cpp`.  A layer
  object is its id together with the list of mutating calls it has received;
  its queries (`hitTest`, `getHoveredCorner`, `getCentroid`) are parameters,
  collected in `LayerApi`.
* The arithmetic of `float` and of the vector classes of the host framework is
  a parameter as well, collected in `FloatOps`.
* An operation that reads outside the deque or through an empty pointer has no
  defined behaviour; such an operation returns `none`.
* `Poco::Path` and `Json::Value` are classes of libraries; they are modelled with
  the operations `Project.cpp` uses, and a call whose assertion fails returns
  `none`.  What else comes from outside `Project.cpp` (the file system, the
  media type map, the application shell, the constructor and the serialization
  of `Layer`) is a parameter, collected in `Host`.
-/

namespace Kibio

/-! ## Data model -/

/-- The address of a `Layer` object, as held by a non-empty shared pointer. -/
abbrev Addr := Nat

/-- A `std::shared_ptr<Layer>`; `none` is the empty pointer. -/
abbrev LayerPtr := Option Addr

/-- The class `ofVec2f` of the host framework: two `float` coordinates. -/
structure ofVec2f (F : Type) where
  x : F
  y : F
deriving DecidableEq, Repr

/-- The class `ofPoint` (an `ofVec3f`) of the host framework. -/
structure ofPoint (F : Type) where
  x : F
  y : F
  z : F
deriving DecidableEq, Repr

/-- Arithmetic on `float` and on `ofVec2f` supplied by the host framework and the
compiler: `zero` is the literal `0`, `sub`, `neg` and `div` are the operators
`-`, unary `-` and `/` on `float`, `distance` is `ofVec2f::distance`, `angle` is
`ofVec2f::angle` (in degrees) and `toInt` is the conversion from `float` to
`int`. -/
structure FloatOps (F : Type) where
  zero : F
  sub : F → F → F
  neg : F → F
  div : F → F → F
  distance : ofVec2f F → ofVec2f F → F
  angle : ofVec2f F → ofVec2f F → F
  toInt : F → Int

/-- Conversion `ofVec2f -> ofVec3f` of the host framework: `z` becomes `0`. -/
def ofVec2f.toPoint {F : Type} (fo : FloatOps F) (v : ofVec2f F) : ofPoint F :=
  { x := v.x, y := v.y, z := fo.zero }

/-- Conversion `ofVec3f -> ofVec2f` of the host framework: `z` is dropped. -/
def ofPoint.toVec2f {F : Type} (p : ofPoint F) : ofVec2f F :=
  { x := p.x, y := p.y }

/-- The operator `ofVec3f::operator-`, componentwise. -/
def ofPoint.sub {F : Type} (fo : FloatOps F) (a b : ofPoint F) : ofPoint F :=
  { x := fo.sub a.x b.x, y := fo.sub a.y b.y, z := fo.sub a.z b.z }

/-- The operator `ofVec2f::operator-`, componentwise. -/
def ofVec2f.sub {F : Type} (fo : FloatOps F) (a b : ofVec2f F) : ofVec2f F :=
  { x := fo.sub a.x b.x, y := fo.sub a.y b.y }

/-! ## `Poco::Path`

The path class of the Poco library, which is not code of this repository, for
Unix paths: the node, the device and the version of a path are empty and are
left out. -/

/-- A `Poco::Path`: the flag `_absolute`, the directory list `_dirs` and the
file name `_name`, which is empty for a directory path. -/
structure Path where
  absolute : Bool
  dirs : List String
  name : String
deriving DecidableEq, Repr

/-- The default constructor `Poco::Path()`: the empty relative path. -/
def Path.empty : Path :=
  { absolute := false, dirs := [], name := "" }

/-- `Poco::Path::depth`. -/
def Path.depth (p : Path) : Nat :=
  p.dirs.length

/-- `Poco::Path::directory(n)` and `Poco::Path::operator[](n)` for `n <= depth()`:
the `n`-th directory, and the file name for `n = depth()`. -/
def Path.directory (p : Path) (n : Nat) : String :=
  p.dirs.getD n p.name

/-- `Poco::Path::pushDirectory`: an empty name and `.` are ignored, and `..`
removes the last directory where there is one to remove. -/
def Path.pushDirectory (p : Path) (dir : String) : Path :=
  if dir ≠ "" ∧ dir ≠ "." then
    if dir = ".." then
      if p.dirs ≠ [] ∧ p.dirs.getLast? ≠ some ".." then { p with dirs := p.dirs.dropLast }
      else if p.absolute = false then { p with dirs := p.dirs ++ [dir] }
      else p
    else { p with dirs := p.dirs ++ [dir] }
  else p

/-- `Poco::Path::makeDirectory`: the file name becomes the last directory. -/
def Path.makeDirectory (p : Path) : Path :=
  { p.pushDirectory p.name with name := "" }

/-- `Poco::Path::setFileName`. -/
def Path.setFileName (p : Path) (name : String) : Path :=
  { p with name := name }

/-- `Poco::Path::makeAbsolute(base)`, which `makeAbsolute()` calls with the
current directory as `base`: an absolute path is left as it is, and the
directories of a relative path are pushed onto `base`. -/
def Path.makeAbsolute (base : Path) (p : Path) : Path :=
  if p.absolute then p
  else
    { absolute := base.absolute
      dirs := (p.dirs.foldl Path.pushDirectory base.makeDirectory).dirs
      name := p.name }

/-- `Poco::Path::makeParent`, the body of `Poco::Path::parent`. -/
def Path.parent (p : Path) : Path :=
  if p.name = "" then
    match p.dirs.getLast? with
    | none => if p.absolute = false then { p with dirs := [".."] } else p
    | some last =>
      if last = ".." then { p with dirs := p.dirs ++ [".."] }
      else { p with dirs := p.dirs.dropLast }
  else { p with name := "" }

/-- The constructor `Poco::Path(parent, fileName)`. -/
def Path.withFileName (parent : Path) (fileName : String) : Path :=
  { parent.makeDirectory with name := fileName }

/-- `Poco::Path::resolve`, the body of the constructor `Poco::Path(parent, relative)`. -/
def Path.resolve (parent : Path) (relative : Path) : Path :=
  if relative.absolute then relative
  else { relative.dirs.foldl Path.pushDirectory parent with name := relative.name }

/-- `Poco::Path::append`. -/
def Path.append (p : Path) (q : Path) : Path :=
  { p.makeDirectory with dirs := p.makeDirectory.dirs ++ q.dirs, name := q.name }

/-- The directories of a parsed absolute `Poco::Path`: every directory went
through `pushDirectory`, so none of them is empty, `.` or `..`. -/
def Path.Plain (p : Path) : Prop :=
  ∀ d ∈ p.dirs, d ≠ "" ∧ d ≠ "." ∧ d ≠ ".."

/-- Modelled from the spec: the mutating methods of the collaborator `Layer`
(`translate(vec)`, `rotate(angleDegrees)`, `scale(factor)`, `loadVideo(path)`,
`loadMask(path)`, `clearMask()`, `saveMask()`), whose class is not among the
sources, and the call `_video->setPosition(position)` on the video of a layer.
A value records one such call made by `Project`, with the argument as
`Project.cpp` passes it; a path stands for its `toString()`. -/
inductive LayerCall (F : Type) where
  | translate (delta : ofPoint F)
  | rotate (angle : Int)
  | scale (mult : F)
  | loadVideo (path : Path)
  | loadMask (path : Path)
  | clearMask
  | saveMask
  | videoSetPosition (position : Int)
deriving DecidableEq, Repr

/-- Modelled from the spec: the collaborator class `Layer`, which is not among the
sources.  A `Layer` object is what `Project` can tell of it: its id (`getId()`)
and the mutating calls it has received so far, oldest first. -/
structure Layer (F : Type) where
  id : Nat
  calls : List (LayerCall F)
deriving DecidableEq, Repr

/-- Modelled from the spec: the queries of the collaborator `Layer` used by
`Project`, taken as parameters since `Layer` is not among the sources.
`getHoveredCorner` is the truth value of the result of `Layer::getHoveredCorner`,
and `getCentroid` is the result of `Layer::getCentroid` as it is stored in an
`ofVec2f`. -/
structure LayerApi (F : Type) where
  hitTest : Layer F → ofPoint F → Bool
  getHoveredCorner : Layer F → ofPoint F → Bool
  getCentroid : Layer F → ofVec2f F

/-! ## `Json::Value`

The value class of the JsonCpp library, which is not code of this repository,
with the operations `Project.cpp` uses.  An operation whose assertion on the
type of the value fails has no result. -/

/-- A `Json::Value`. -/
inductive JsonValue where
  | null
  | bool (b : Bool)
  | number (n : Int)
  | string (s : String)
  | array (items : List JsonValue)
  | object (members : List (String × JsonValue))

/-- The member `key` of the members of an object, if there is one. -/
def JsonValue.lookup (key : String) : List (String × JsonValue) → Option JsonValue
  | [] => none
  | (k, v) :: rest => if k = key then some v else JsonValue.lookup key rest

/-- `Json::Value::isMember(key)`: defined on `null` and on objects. -/
def JsonValue.isMember (json : JsonValue) (key : String) : Option Bool :=
  match json with
  | JsonValue.null => some false
  | JsonValue.object members => some (JsonValue.lookup key members).isSome
  | _ => none

/-- The constant `Json::Value::operator[](key)`: defined on `null` and on objects,
`null` for a key that is not a member. -/
def JsonValue.get (json : JsonValue) (key : String) : Option JsonValue :=
  match json with
  | JsonValue.null => some JsonValue.null
  | JsonValue.object members => some ((JsonValue.lookup key members).getD JsonValue.null)
  | _ => none

/-- `Json::Value::size`: the number of elements of an array, the number of
members of an object, and `0` for every other value. -/
def JsonValue.size (json : JsonValue) : Nat :=
  match json with
  | JsonValue.array items => items.length
  | JsonValue.object members => members.length
  | _ => 0

/-- The constant `Json::Value::operator[](index)`: defined on `null` and on
arrays, `null` for an index that is not present. -/
def JsonValue.index (json : JsonValue) (index : Nat) : Option JsonValue :=
  match json with
  | JsonValue.null => some JsonValue.null
  | JsonValue.array items => some (items.getD index JsonValue.null)
  | _ => none

/-- `Json::Value::append`: defined on `null`, which becomes an array, and on
arrays. -/
def JsonValue.append (json : JsonValue) (value : JsonValue) : Option JsonValue :=
  match json with
  | JsonValue.null => some (JsonValue.array [value])
  | JsonValue.array items => some (JsonValue.array (items ++ [value]))
  | _ => none

/-- The members of an object after the member `key` has been set to `value`. -/
def JsonValue.setMember (key : String) (value : JsonValue) :
    List (String × JsonValue) → List (String × JsonValue)
  | [] => [(key, value)]
  | (k, v) :: rest =>
    if k = key then (k, value) :: rest else (k, v) :: JsonValue.setMember key value rest

/-- The statement `json[key].append(value)`: the mutable `operator[](key)` turns
`null` into an object and adds the member `key` as `null` where it is missing,
and `append` acts on that member. -/
def JsonValue.appendTo (json : JsonValue) (key : String) (value : JsonValue) :
    Option JsonValue :=
  match json with
  | JsonValue.null =>
    (JsonValue.null.append value).map fun v => JsonValue.object [(key, v)]
  | JsonValue.object members =>
    (((JsonValue.lookup key members).getD JsonValue.null).append value).map fun v =>
      JsonValue.object (JsonValue.setMember key v members)
  | _ => none

/-! ## The environment of `Project` -/

/-- What `Project.cpp` obtains from the application shell, the file system, the
libraries and the collaborator `Layer`, as parameters. -/
structure Host (F : Type) where
  /-- `Poco::Path::current()`, the base of `makeAbsolute()`. -/
  currentDirectory : Path
  /-- `_parent.getUserProjectsPath()`. -/
  userProjectsPath : Path
  /-- `Poco::Path::forDirectory(name)`. -/
  forDirectory : String → Path
  /-- The constructor `Poco::Path(const std::string&)`. -/
  parsePath : String → Path
  /-- `Poco::UTF8::toLower`. -/
  toLower : String → String
  /-- `getMediaTypeForPath(path)` of the default media type map followed by
  `matches(type)`. -/
  mediaTypeMatches : Path → String → Bool
  /-- The content read through `Poco::FileInputStream` from the file at a path;
  `none` when opening the file throws. -/
  openFile : Path → Option String
  /-- `Json::Reader::parse`; `none` when it returns false. -/
  parse : String → Option JsonValue
  /-- The object that `new Layer(project)` constructs at an address. -/
  newLayer : Addr → Layer F
  /-- The result of `Layer::loadVideo(path)` on a layer. -/
  loadVideo : Layer F → Path → Bool
  /-- `Layer::toJSON`. -/
  layerToJSON : Layer F → JsonValue
  /-- `Layer::fromJSON(json, layer)`: the layer as deserialized when it returns
  true, `none` when it returns false. -/
  layerFromJSON : JsonValue → Layer F → Option (Layer F)

/-- Modelled from the spec: the application mode returned by `_parent.getMode()`,
an enumeration of `AbstractApp`, which is not among the sources.  `Project.cpp`
names `EDIT`; the spec names the other mode. -/
inductive Mode where
  | EDIT
  | PRESENT
deriving DecidableEq, Repr

/-- Modelled from the spec: the enumeration `TransformType` of `Project.h`, which
is not among the sources, with the four values the spec lists and `Project.cpp`
uses. -/
inductive TransformType where
  | NONE
  | TRANSLATE
  | ROTATE
  | SCALE
deriving DecidableEq, Repr

/-- Modelled from the spec: the enumeration `LayerShift` of `Project.h`, which is
not among the sources, with the four values the spec lists and `Project.cpp`
uses. -/
inductive LayerShift where
  | LAYER_SHIFT_UP
  | LAYER_SHIFT_DOWN
  | LAYER_SHIFT_TOP
  | LAYER_SHIFT_BOTTOM
deriving DecidableEq, Repr

/-- Modelled from the spec: the data members of `Project`, declared in `Project.h`,
which is not among the sources.  The fields are the members that the layer stack
and the gesture handlers of `Project.cpp` read and write, with the heap of
`Layer` objects its shared pointers refer to. -/
structure Project (F : Type) where
  /-- The value of `_parent.getMode()`. -/
  mode : Mode
  /-- The `Layer` object at each address. -/
  heap : Addr → Layer F
  /-- The deque `_layers`; index 0 is the bottom layer. -/
  layers : List LayerPtr
  /-- The member `_lastSelectedLayer`. -/
  lastSelectedLayer : LayerPtr
  /-- The member `_dragging`. -/
  dragging : LayerPtr
  /-- The member `_dragStart`. -/
  dragStart : ofPoint F
  /-- The member `_transform`. -/
  transform : TransformType
  /-- The member `_path`. -/
  path : Path
  /-- The member `_isLoaded`. -/
  isLoaded : Bool

/-! ## `Project::getLayerAtPoint` -/

/-- The loop of `Project::getLayerAtPoint`.  The argument lists the entries of
the deque from `*iter` down to `*begin()`; it is empty when
`iter == _layers.begin() - 1`. -/
def getLayerAtPointLoop {F : Type} (api : LayerApi F) (heap : Addr → Layer F)
    (point : ofPoint F) : List LayerPtr → LayerPtr
  | [] => none
  | none :: below => getLayerAtPointLoop api heap point below
  | some a :: below =>
    if api.hitTest (heap a) point then some a
    else getLayerAtPointLoop api heap point below

/-- `Project::getLayerAtPoint`: the iterator starts at `_layers.end() - 1`, so
the loop sees the deque in reverse. -/
def getLayerAtPoint {F : Type} (api : LayerApi F) (P : Project F)
    (point : ofPoint F) : LayerPtr :=
  getLayerAtPointLoop api P.heap point P.layers.reverse

/-! ## `Project::shiftLayer` -/

/-- The test `(*iter) && (*iter)->getId() == layer->getId()` of the loops of
`Project::shiftLayer`. -/
def matchesId {F : Type} (heap : Addr → Layer F) (entry : LayerPtr) (layer : Addr) : Bool :=
  match entry with
  | none => false
  | some a => decide ((heap a).id = (heap layer).id)

/-- The ids (`getId()`) of the layers at the given addresses, in order. -/
def idsOf {F : Type} (heap : Addr → Layer F) (as : List Addr) : List Nat :=
  as.map fun a => (heap a).id

/-- The loop of the `LAYER_SHIFT_UP` branch.  The argument is the part of the
deque from `*iter` to the end, and the result is what that part has become when
the loop ends.  With nothing left at `iter` the iterator is `_layers.end()`,
which differs from `_layers.end() - 1`: the body reads `*iter` past the end. -/
def shiftUpLoop {F : Type} (heap : Addr → Layer F) (layer : Addr) :
    List LayerPtr → Option (List LayerPtr)
  | [] => none
  | [x] => some [x]
  | x :: y :: rest =>
    if matchesId heap x layer then some (y :: x :: rest)
    else (shiftUpLoop heap layer (y :: rest)).map (fun l => x :: l)

/-- The loop of the `LAYER_SHIFT_DOWN` branch.  `prev` is `*(iter - 1)` and the
list is the part of the deque from `*iter` to the end; the result is what
`prev` followed by that part has become when the loop ends. -/
def shiftDownLoop {F : Type} (heap : Addr → Layer F) (layer : Addr) :
    LayerPtr → List LayerPtr → List LayerPtr
  | prev, [] => [prev]
  | prev, x :: rest =>
    if matchesId heap x layer then x :: prev :: rest
    else prev :: shiftDownLoop heap layer x rest

/-- The search loop shared by the `LAYER_SHIFT_TOP` and `LAYER_SHIFT_BOTTOM`
branches, up to and including `_layers.erase(iter)`.  The argument is the part
of the deque from `*iter` to the end; the result is that part after the erasure,
or `none` when the iterator reaches `_layers.end()` without a match. -/
def eraseLoop {F : Type} (heap : Addr → Layer F) (layer : Addr) :
    List LayerPtr → Option (List LayerPtr)
  | [] => none
  | x :: rest =>
    if matchesId heap x layer then some rest
    else (eraseLoop heap layer rest).map (fun l => x :: l)

/-- The body of `Project::shiftLayer(Layer::SharedPtr, LayerShift)` as a function
of the deque.  The result is `none` where the code reads outside the deque or
through an empty pointer. -/
def shiftLayers {F : Type} (heap : Addr → Layer F) (layers : List LayerPtr)
    (layer : LayerPtr) (shift : LayerShift) : Option (List LayerPtr) :=
  match layer with
  | none => some layers
  | some l =>
    let afterFirst : Option (List LayerPtr) :=
      if shift = LayerShift.LAYER_SHIFT_UP then
        shiftUpLoop heap l layers
      else if shift = LayerShift.LAYER_SHIFT_DOWN then
        match layers with
        | [] => none
        | first :: rest => some (shiftDownLoop heap l first rest)
      else some layers
    afterFirst.bind fun ls =>
      if shift = LayerShift.LAYER_SHIFT_TOP then
        match ls.getLast? with
        | none => none
        | some none => none
        | some (some top) =>
          if (heap l).id ≠ (heap top).id then
            match eraseLoop heap l ls with
            | some erased => some (erased ++ [some l])
            | none => some ls
          else some ls
      else if shift = LayerShift.LAYER_SHIFT_BOTTOM then
        match ls.head? with
        | none => none
        | some none => none
        | some (some bottom) =>
          if (heap l).id ≠ (heap bottom).id then
            match eraseLoop heap l ls with
            | some erased => some (some l :: erased)
            | none => some ls
          else some ls
      else some ls

/-- `Project::shiftLayer(Layer::SharedPtr, LayerShift)`. -/
def shiftLayer {F : Type} (P : Project F) (layer : LayerPtr) (shift : LayerShift) :
    Option (Project F) :=
  (shiftLayers P.heap P.layers layer shift).map fun ls => { P with layers := ls }

/-- A finite sequence of calls of `shiftLayer(layer, shift)`, in order. -/
def shiftLayerSeq {F : Type} (P : Project F) :
    List (LayerPtr × LayerShift) → Option (Project F)
  | [] => some P
  | (layer, shift) :: calls => (shiftLayer P layer shift).bind fun Q => shiftLayerSeq Q calls

/-! ## Mouse handlers -/

/-- The loop of `Project::isCornerHovered` over the deque from `*iter` on. -/
def isCornerHoveredLoop {F : Type} (api : LayerApi F) (heap : Addr → Layer F)
    (point : ofPoint F) : List LayerPtr → Bool
  | [] => false
  | none :: rest => isCornerHoveredLoop api heap point rest
  | some a :: rest =>
    if api.getHoveredCorner (heap a) point then true
    else isCornerHoveredLoop api heap point rest

/-- `Project::isCornerHovered`. -/
def isCornerHovered {F : Type} (api : LayerApi F) (P : Project F) (point : ofPoint F) : Bool :=
  isCornerHoveredLoop api P.heap point P.layers

/-- `Project::mousePressed`; `mouse` is the position of the event, an `ofVec2f`. -/
def mousePressed {F : Type} (fo : FloatOps F) (api : LayerApi F) (P : Project F)
    (mouse : ofVec2f F) : Option (Project F) :=
  if P.mode ≠ Mode.EDIT then some P
  else
    let layer := getLayerAtPoint api P (mouse.toPoint fo)
    if layer.isSome && !isCornerHovered api P (mouse.toPoint fo) then
      shiftLayer
        { P with dragging := layer, dragStart := mouse.toPoint fo, lastSelectedLayer := layer }
        layer LayerShift.LAYER_SHIFT_TOP
    else some P

/-- The heap after the layer at address `a` has received the call `c`. -/
def callLayer {F : Type} (heap : Addr → Layer F) (a : Addr) (c : LayerCall F) :
    Addr → Layer F :=
  Function.update heap a { heap a with calls := (heap a).calls ++ [c] }

/-- `Project::mouseReleased`; `mouse` is the position of the event, an `ofVec2f`. -/
def mouseReleased {F : Type} (fo : FloatOps F) (api : LayerApi F) (P : Project F)
    (mouse : ofVec2f F) : Project F :=
  match P.dragging with
  | none => P
  | some d =>
    let dragEnd := mouse.toPoint fo
    let delta := dragEnd.sub fo P.dragStart
    let heap1 :=
      if P.transform = TransformType.TRANSLATE then
        callLayer P.heap d (LayerCall.translate delta)
      else if P.transform = TransformType.ROTATE then
        let centroid := api.getCentroid (P.heap d)
        let deltaVec := mouse.sub fo centroid
        let angle :=
          fo.toInt (fo.neg (fo.angle deltaVec (P.dragStart.sub fo (centroid.toPoint fo)).toVec2f))
        callLayer P.heap d (LayerCall.rotate angle)
      else if P.transform = TransformType.SCALE then
        let centroid := api.getCentroid (P.heap d)
        let mult := fo.div (fo.distance centroid mouse) (fo.distance centroid P.dragStart.toVec2f)
        callLayer P.heap d (LayerCall.scale mult)
      else P.heap
    { P with heap := heap1, dragging := none }

/-- The divisor of the quotient evaluated by the `SCALE` branch of
`Project::mouseReleased` for the dragged layer at address `d`:
`centroid.distance(_dragStart)`. -/
def scaleDivisor {F : Type} (fo : FloatOps F) (api : LayerApi F) (P : Project F)
    (d : Addr) : F :=
  fo.distance (api.getCentroid (P.heap d)) P.dragStart.toVec2f

/-- The rotation in the words of the spec, before any conversion: the negation
of the signed angle (`ofVec2f::angle`) measured from the vector
`dragStart - centroid` to the vector `q - centroid`, for the dragged layer at
address `d`.  It is compared with the argument that `Project::mouseReleased`
passes to `Layer::rotate`. -/
def statedRotation {F : Type} (fo : FloatOps F) (api : LayerApi F) (P : Project F)
    (d : Addr) (q : ofVec2f F) : F :=
  fo.neg (fo.angle
    (P.dragStart.sub fo ((api.getCentroid (P.heap d)).toPoint fo)).toVec2f
    (q.sub fo (api.getCentroid (P.heap d))))

/-! ## Paths relative to the project folder -/

/-- `Project::isFileInProjectFolder`. -/
def isFileInProjectFolder {F : Type} (host : Host F) (P : Project F) (path : Path) : Bool :=
  let projectPath := Path.makeAbsolute host.currentDirectory P.path
  let otherPath := Path.makeAbsolute host.currentDirectory path
  if projectPath.depth > otherPath.depth then false
  else
    (List.range projectPath.depth).all fun i =>
      if i < otherPath.depth then
        decide (projectPath.directory i = otherPath.directory i)
      else true

/-- The loop `while (projectPath[0] == otherPath[0])` of
`Project::makeRelativeToProjectFolder`, which pops the front directory of both
paths.  The lists are the directories that `projectPath` and `otherPath` still
have, and the names are their file names, which `operator[](0)` returns for a
path without directories.  The result is `none` when `popFrontDirectory` is
called on a path without directories, where the assertion of Poco fails. -/
def stripLoop (projectName otherName : String) :
    List String → List String → Option (List String × List String)
  | [], od =>
    if projectName = od.headD otherName then none else some ([], od)
  | p :: pd, [] =>
    if p = otherName then none else some (p :: pd, [])
  | p :: pd, o :: od =>
    if p = o then stripLoop projectName otherName pd od else some (p :: pd, o :: od)

/-- `Project::makeRelativeToProjectFolder`: the returned flag and the value of the
reference argument `path` after the call. -/
def makeRelativeToProjectFolder {F : Type} (host : Host F) (P : Project F) (path : Path) :
    Option (Bool × Path) :=
  if isFileInProjectFolder host P path then
    let projectPath := Path.makeAbsolute host.currentDirectory P.path
    let otherPath := Path.makeAbsolute host.currentDirectory path
    match stripLoop projectPath.name otherPath.name projectPath.dirs otherPath.dirs with
    | none => none
    | some (_, otherDirs) =>
      some (true, (otherDirs.foldl Path.pushDirectory Path.empty).setFileName otherPath.name)
  else some (false, path)

/-! ## Layers added, masked and deleted -/

/-- `Project::newLayerWithVideoAtPoint`; `a` is the address of the object that
`new Layer(*this)` creates. -/
def newLayerWithVideoAtPoint {F : Type} (host : Host F) (P : Project F) (videoPath : Path)
    (a : Addr) : Project F :=
  if P.mode ≠ Mode.EDIT then P
  else if !host.loadVideo (host.newLayer a) videoPath then P
  else
    { P with
      heap := callLayer (Function.update P.heap a (host.newLayer a)) a
        (LayerCall.loadVideo videoPath)
      layers := P.layers ++ [some a] }

/-- `Project::setMaskForLayerAtPoint`. -/
def setMaskForLayerAtPoint {F : Type} (api : LayerApi F) (P : Project F) (maskPath : Path)
    (point : ofPoint F) : Project F :=
  if P.mode ≠ Mode.EDIT then P
  else
    match getLayerAtPoint api P point with
    | some l => { P with heap := callLayer P.heap l (LayerCall.loadMask maskPath) }
    | none => P

/-- `_layers.erase(std::find(_layers.begin(), _layers.end(), layer))`: the first
entry equal to `layer` is removed; without such an entry the iterator passed to
`erase` is `_layers.end()`. -/
def eraseFound (layer : LayerPtr) : List LayerPtr → Option (List LayerPtr)
  | [] => none
  | x :: rest =>
    if x = layer then some rest else (eraseFound layer rest).map (fun l => x :: l)

/-- `Project::deleteLayerAtPoint`. -/
def deleteLayerAtPoint {F : Type} (api : LayerApi F) (P : Project F) (point : ofPoint F) :
    Option (Project F) :=
  if P.mode ≠ Mode.EDIT then some P
  else
    match getLayerAtPoint api P point with
    | some l =>
      (eraseFound (some l) P.layers).map fun ls =>
        { P with
          layers := ls
          lastSelectedLayer :=
            match P.lastSelectedLayer with
            | some s => if (P.heap s).id = (P.heap l).id then none else some s
            | none => none }
    | none => some P

/-- `Project::shiftLayer(LayerShift)`, which shifts the last selected layer. -/
def shiftLastSelectedLayer {F : Type} (P : Project F) (shift : LayerShift) :
    Option (Project F) :=
  match P.lastSelectedLayer with
  | some s => shiftLayer P (some s) shift
  | none => some P

/-- The argument of `Project::dragEvent`: the dropped files and the drop
position. -/
structure ofDragInfo (F : Type) where
  files : List String
  position : ofPoint F

/-- `Project::dragEvent`; `a` is the address of the `Layer` object created if a
video is added.  The result is `none` when the assertion of Poco fails in
`makeRelativeToProjectFolder`. -/
def dragEvent {F : Type} (host : Host F) (api : LayerApi F) (P : Project F)
    (dragInfo : ofDragInfo F) (a : Addr) : Option (Project F) :=
  if P.mode ≠ Mode.EDIT then some P
  else
    match dragInfo.files with
    | [] => some P
    | file :: _ =>
      let path := host.parsePath file
      let cleanPath := Path.withFileName path.parent (host.toLower path.name)
      if host.mediaTypeMatches cleanPath "video" then
        match makeRelativeToProjectFolder host P path with
        | none => none
        | some (true, relativePath) => some (newLayerWithVideoAtPoint host P relativePath a)
        | some (false, _) => some P
      else if host.mediaTypeMatches cleanPath "image" then
        match makeRelativeToProjectFolder host P path with
        | none => none
        | some (true, relativePath) =>
          some (setMaskForLayerAtPoint api P relativePath dragInfo.position)
        | some (false, _) => some P
      else some P

/-! ## Persistence -/

/-- The constant `Project::FILE_EXTENSION`. -/
def FILE_EXTENSION : String := ".kibio"

/-- The loop of `Project::toJSON` over the deque from `*iter` on; `json` is the
value built so far.  The result is `none` when the loop reads through an empty
pointer. -/
def toJSONLoop {F : Type} (host : Host F) (heap : Addr → Layer F) :
    JsonValue → List LayerPtr → Option JsonValue
  | json, [] => some json
  | _, none :: _ => none
  | json, some a :: rest =>
    (json.appendTo "layers" (host.layerToJSON (heap a))).bind fun j =>
      toJSONLoop host heap j rest

/-- `Project::toJSON`. -/
def toJSON {F : Type} (host : Host F) (P : Project F) : Option JsonValue :=
  toJSONLoop host P.heap JsonValue.null P.layers

/-- The loop of `Project::fromJSON` over the elements `layers[i]`, `layers[i + 1]`,
... of the array; `alloc k` is the address of the object created by the `k`-th
`new Layer(object)` of the call. -/
def fromJSONLoop {F : Type} (host : Host F) (alloc : Nat → Addr) :
    Nat → List JsonValue → Project F → Project F
  | _, [], P => P
  | i, layer :: rest, P =>
    match host.layerFromJSON layer (host.newLayer (alloc i)) with
    | none => fromJSONLoop host alloc (i + 1) rest P
    | some pLayer =>
      fromJSONLoop host alloc (i + 1) rest
        { P with
          heap := Function.update P.heap (alloc i) pLayer
          layers := P.layers ++ [some (alloc i)] }

/-- `Project::fromJSON`: the returned flag and the project after the call.  The
result is `none` where an assertion of JsonCpp on the type of a value fails. -/
def fromJSON {F : Type} (host : Host F) (json : JsonValue) (P : Project F)
    (alloc : Nat → Addr) : Option (Bool × Project F) :=
  match json.isMember "layers" with
  | none => none
  | some false => some (true, P)
  | some true =>
    match json.get "layers" with
    | none => none
    | some (JsonValue.array items) => some (true, fromJSONLoop host alloc 0 items P)
    | some layers => if layers.size = 0 then some (true, P) else none

/-- `Project::load`: the returned flag and the project after the call. -/
def load {F : Type} (host : Host F) (P : Project F) (name : String) (alloc : Nat → Addr) :
    Option (Bool × Project F) :=
  let P1 := { P with path := Path.resolve host.userProjectsPath (host.forDirectory name) }
  let settingsPath := Path.withFileName P1.path (name ++ FILE_EXTENSION)
  match host.openFile settingsPath with
  | none => some (false, { P1 with isLoaded := false })
  | some content =>
    match host.parse content with
    | some json =>
      (fromJSON host json P1 alloc).map fun r => (true, { r.2 with isLoaded := true })
    | none => some (false, { P1 with isLoaded := false })

/-! ## `Project::keyPressed` -/

/-- `Project::clearMaskAtPoint`. -/
def clearMaskAtPoint {F : Type} (api : LayerApi F) (P : Project F) (point : ofPoint F) :
    Project F :=
  if P.mode ≠ Mode.EDIT then P
  else
    match getLayerAtPoint api P point with
    | some l => { P with heap := callLayer P.heap l LayerCall.clearMask }
    | none => P

/-- What `Project::keyPressed` takes from the host framework and from `Layer`: the
key codes `OF_KEY_DEL` and `OF_KEY_BACKSPACE`, and whether the member `_video` of
a layer is set. -/
structure KeyEnv (F : Type) where
  OF_KEY_DEL : Int
  OF_KEY_BACKSPACE : Int
  hasVideo : Layer F → Bool

/-- A key event as `Project::keyPressed` reads it: `key.key`, the results of
`ofGetKeyPressed(modifier)` and `ofGetKeyPressed(OF_KEY_SHIFT)`, and the mouse
position `ofGetMouseX()`, `ofGetMouseY()`. -/
structure KeyInput (F : Type) where
  key : Int
  modifierPressed : Bool
  shiftPressed : Bool
  mouseX : F
  mouseY : F

/-- The loop of the branch `'x'` of `Project::keyPressed` over the deque from
`*iter` on: the video of every layer that has one is set to position 0. -/
def rewindLoop {F : Type} (env : KeyEnv F) :
    (Addr → Layer F) → List LayerPtr → (Addr → Layer F)
  | heap, [] => heap
  | heap, none :: rest => rewindLoop env heap rest
  | heap, some a :: rest =>
    if env.hasVideo (heap a) then
      rewindLoop env (callLayer heap a (LayerCall.videoSetPosition 0)) rest
    else rewindLoop env heap rest

/-- `Project::keyPressed`.  The character codes are `120` for `'x'`, `93` for `']'`
and `91` for `'['`. -/
def keyPressed {F : Type} (fo : FloatOps F) (api : LayerApi F) (env : KeyEnv F)
    (P : Project F) (key : KeyInput F) : Option (Project F) :=
  let mouse : ofPoint F := { x := key.mouseX, y := key.mouseY, z := fo.zero }
  if key.modifierPressed then
    if key.key = 120 then some { P with heap := rewindLoop env P.heap P.layers }
    else if key.key = env.OF_KEY_DEL ∨ key.key = env.OF_KEY_BACKSPACE then
      some (clearMaskAtPoint api P mouse)
    else if key.key = 93 then
      if key.shiftPressed then shiftLastSelectedLayer P LayerShift.LAYER_SHIFT_TOP
      else shiftLastSelectedLayer P LayerShift.LAYER_SHIFT_UP
    else if key.key = 91 then
      if key.shiftPressed then shiftLastSelectedLayer P LayerShift.LAYER_SHIFT_BOTTOM
      else shiftLastSelectedLayer P LayerShift.LAYER_SHIFT_DOWN
    else some P
  else if key.key = env.OF_KEY_DEL ∨ key.key = env.OF_KEY_BACKSPACE then
    deleteLayerAtPoint api P mouse
  else some P

/-! ## `SimpleApp`: paths relative to the user projects folder -/

/-- `SimpleApp::isFileInUserProjectsFolder`; `userProjectsPath` is the member
`_userProjectsPath` and `current` is `Poco::Path::current()`. -/
def isFileInUserProjectsFolder (current userProjectsPath path : Path) : Bool :=
  let projectPath := Path.makeAbsolute current userProjectsPath
  let otherPath := Path.makeAbsolute current path
  if projectPath.depth > otherPath.depth then false
  else
    (List.range projectPath.depth).all fun i =>
      if i < otherPath.depth then
        decide (projectPath.directory i = otherPath.directory i)
      else true

/-- `SimpleApp::makeRelativeToUserProjectsFolder`: the returned flag and the value
of the reference argument `path` after the call. -/
def makeRelativeToUserProjectsFolder (current userProjectsPath path : Path) :
    Option (Bool × Path) :=
  if isFileInUserProjectsFolder current userProjectsPath path then
    let projectPath := Path.makeAbsolute current userProjectsPath
    let otherPath := Path.makeAbsolute current path
    match stripLoop projectPath.name otherPath.name projectPath.dirs otherPath.dirs with
    | none => none
    | some (_, otherDirs) =>
      some (true, (otherDirs.foldl Path.pushDirectory Path.empty).setFileName otherPath.name)
  else some (false, path)

/-! ## `UserInterface`: the buttons -/

/-- Modelled from the spec: the enumeration `UIButtonType` of `UserInterface.h`,
which is not among the sources, with the nine values `UserInterface.cpp` names.
Their numeric values are not known and are a parameter of `_getButton`. -/
inductive UIButtonType where
  | BUTTON_OPEN_PROJECT
  | BUTTON_NEW_PROJECT
  | BUTTON_SAVE_PROJECT
  | BUTTON_INFO
  | BUTTON_TOGGLE_MODE
  | BUTTON_TOOL_BRUSH
  | BUTTON_TOOL_TRANSLATE
  | BUTTON_TOOL_ROTATE
  | BUTTON_TOOL_SCALE
deriving DecidableEq, Repr

/-- The nine `ImageButton` members of `UserInterface`. -/
inductive ButtonMember where
  | openProjectButton
  | newProjectButton
  | saveProjectButton
  | infoButton
  | toggleModeButton
  | toolBrushButton
  | toolTranslateButton
  | toolRotateButton
  | toolScaleButton
deriving DecidableEq, Repr

/-- The type each button member is constructed with by the constructor
`UserInterface::UserInterface`. -/
def ButtonMember.type : ButtonMember → UIButtonType
  | ButtonMember.openProjectButton => UIButtonType.BUTTON_OPEN_PROJECT
  | ButtonMember.newProjectButton => UIButtonType.BUTTON_NEW_PROJECT
  | ButtonMember.saveProjectButton => UIButtonType.BUTTON_SAVE_PROJECT
  | ButtonMember.infoButton => UIButtonType.BUTTON_INFO
  | ButtonMember.toggleModeButton => UIButtonType.BUTTON_TOGGLE_MODE
  | ButtonMember.toolBrushButton => UIButtonType.BUTTON_TOOL_BRUSH
  | ButtonMember.toolTranslateButton => UIButtonType.BUTTON_TOOL_TRANSLATE
  | ButtonMember.toolRotateButton => UIButtonType.BUTTON_TOOL_ROTATE
  | ButtonMember.toolScaleButton => UIButtonType.BUTTON_TOOL_SCALE

/-- `UserInterface::_getButton`; `value` gives the numeric value of each
enumerator.  Only the first test compares `type`; each later test is the
enumerator itself, which holds when its value is not zero.  The result is `none`
when control reaches the end of the function without a `return`. -/
def _getButton (value : UIButtonType → Int) (type : UIButtonType) : Option ButtonMember :=
  if value type = value UIButtonType.BUTTON_OPEN_PROJECT then
    some ButtonMember.openProjectButton
  else if value UIButtonType.BUTTON_NEW_PROJECT ≠ 0 then
    some ButtonMember.newProjectButton
  else if value UIButtonType.BUTTON_SAVE_PROJECT ≠ 0 then
    some ButtonMember.saveProjectButton
  else if value UIButtonType.BUTTON_INFO ≠ 0 then
    some ButtonMember.infoButton
  else if value UIButtonType.BUTTON_TOGGLE_MODE ≠ 0 then
    some ButtonMember.toggleModeButton
  else if value UIButtonType.BUTTON_TOOL_BRUSH ≠ 0 then
    some ButtonMember.toolBrushButton
  else if value UIButtonType.BUTTON_TOOL_TRANSLATE ≠ 0 then
    some ButtonMember.toolTranslateButton
  else if value UIButtonType.BUTTON_TOOL_ROTATE ≠ 0 then
    some ButtonMember.toolRotateButton
  else if value UIButtonType.BUTTON_TOOL_SCALE ≠ 0 then
    some ButtonMember.toolScaleButton
  else none

/-- `UserInterface::getUIButtonSelectState`; `selected` gives the member
`_bSelected` of each button. -/
def getUIButtonSelectState (value : UIButtonType → Int) (selected : ButtonMember → Bool)
    (type : UIButtonType) : Option Bool :=
  (_getButton value type).map selected

/-- The four tests `args.type == BUTTON_TOOL_...` of `UserInterface::onButtonSelect`. -/
def isToolType (value : UIButtonType → Int) (type : UIButtonType) : Bool :=
  decide (value type = value UIButtonType.BUTTON_TOOL_BRUSH) ||
  decide (value type = value UIButtonType.BUTTON_TOOL_TRANSLATE) ||
  decide (value type = value UIButtonType.BUTTON_TOOL_ROTATE) ||
  decide (value type = value UIButtonType.BUTTON_TOOL_SCALE)

/-- `UserInterface::onButtonSelect`, the listener of the select event: when the
type of the event is one of the four tool types, every selected button of
another type is deselected; `onButtonDeselect` does nothing. -/
def onButtonSelect (value : UIButtonType → Int) (selected : ButtonMember → Bool)
    (argsType : UIButtonType) : ButtonMember → Bool :=
  if isToolType value argsType then
    fun b => if value b.type ≠ value argsType then false else selected b
  else selected

/-- `ImageButton::setSelected(b)` on the button `button`, with the listeners of
`UserInterface` that `select` and `deselect` notify. -/
def setSelected (value : UIButtonType → Int) (selected : ButtonMember → Bool)
    (button : ButtonMember) (b : Bool) : ButtonMember → Bool :=
  if b then onButtonSelect value (Function.update selected button true) button.type
  else Function.update selected button false

/-- `UserInterface::setUIButtonSelectState`. -/
def setUIButtonSelectState (value : UIButtonType → Int) (selected : ButtonMember → Bool)
    (type : UIButtonType) (state : Bool) : Option (ButtonMember → Bool) :=
  (_getButton value type).map fun button => setSelected value selected button state

/-- `UserInterface::toggleUIButtonState`. -/
def toggleUIButtonState (value : UIButtonType → Int) (selected : ButtonMember → Bool)
    (type : UIButtonType) : Option (ButtonMember → Bool) :=
  (_getButton value type).map fun button =>
    setSelected value selected button (!selected button)

/-! ## Exact integer arithmetic

An instance of `FloatOps` used to evaluate the handlers on concrete inputs.  A
value is `some z` for the integer `z`, and `none` when the exact result of an
operation is not an integer or does not exist (a quotient by zero, the root of
a number that is not a square).  The conversion to `int` of a value that is not
a number is not defined by the language; `toInt` gives `0` there. -/

/-- The natural number whose square is `n`, if there is one. -/
def natRoot (n : Nat) : Option Nat :=
  (List.range (n + 1)).find? (fun r => r * r = n)

/-- The exact square root of an integer, if it is an integer. -/
def intRoot (z : Int) : Option Int :=
  if z < 0 then none else (natRoot z.toNat).map Int.ofNat

/-- The exact quotient of two integers: `none` for the divisor zero and when the
quotient is not an integer. -/
def exactDiv (a b : Int) : Option Int :=
  if b = 0 then none else if b ∣ a then some (a / b) else none

/-- `ofVec2f::distance`, exactly: the root of the sum of the squared coordinate
differences. -/
def exactDistance (a b : ofVec2f (Option Int)) : Option Int := do
  let ax ← a.x
  let ay ← a.y
  let bx ← b.x
  let bY ← b.y
  intRoot ((ax - bx) * (ax - bx) + (ay - bY) * (ay - bY))

/-- `ofVec2f::angle`, in degrees, exactly: the angle `atan2(cross, dot)` from the
first vector to the second.  For integer `cross` and `dot` it is a whole number
of degrees exactly when it is a multiple of 45 degrees. -/
def exactAngle (a b : ofVec2f (Option Int)) : Option Int := do
  let ax ← a.x
  let ay ← a.y
  let bx ← b.x
  let bY ← b.y
  let cross := ax * bY - ay * bx
  let dot := ax * bx + ay * bY
  if cross = 0 then (if dot < 0 then some 180 else some 0)
  else if dot = 0 then (if cross < 0 then some (-90) else some 90)
  else if cross = dot then (if cross < 0 then some (-135) else some 45)
  else if cross = -dot then (if cross < 0 then some (-45) else some 135)
  else none

/-- Exact integer arithmetic as an instance of `FloatOps`. -/
def exactOps : FloatOps (Option Int) where
  zero := some 0
  sub := fun a b => do
    let x ← a
    let y ← b
    pure (x - y)
  neg := fun a => a.map (fun x => -x)
  div := fun a b => do
    let x ← a
    let y ← b
    exactDiv x y
  distance := exactDistance
  angle := exactAngle
  toInt := fun a => a.getD 0

/-! ## Example data -/

/-- A heap for the examples: the layer at address `a` has id `a + 100` and has
received no call. -/
def exampleHeap : Addr → Layer (Option Int) :=
  fun a => { id := a + 100, calls := [] }

/-- Layer queries for the examples: a layer contains the points whose `x` is its
id and the points whose `x` is `0`, no corner is hovered, and the centroid of
every layer is the origin. -/
def exampleApi : LayerApi (Option Int) where
  hitTest := fun l p => decide (p.x = some (l.id : Int)) || decide (p.x = some 0)
  getHoveredCorner := fun _ _ => false
  getCentroid := fun _ => { x := some 0, y := some 0 }

/-- An example project in edit mode with three layers, at the addresses 0
(bottom), 1 and 2 (top), and no drag in progress; it has been loaded from the
folder `/home/projects/demo/`. -/
def exampleProject : Project (Option Int) where
  mode := Mode.EDIT
  heap := exampleHeap
  layers := [some 0, some 1, some 2]
  lastSelectedLayer := none
  dragging := none
  dragStart := { x := some 0, y := some 0, z := some 0 }
  transform := TransformType.NONE
  path := { absolute := true, dirs := ["home", "projects", "demo"], name := "" }
  isLoaded := true

/-- The example project while the layer at address 1 is dragged with the
transform `t`, the drag having started at `start`. -/
def exampleDrag (t : TransformType) (start : ofPoint (Option Int)) : Project (Option Int) :=
  { exampleProject with dragging := some 1, dragStart := start, transform := t }

/-- The paths that the strings of the examples denote; every other string is
taken as a file name in the current directory. -/
def exampleParsePath (s : String) : Path :=
  if s = "/home/projects/demo/clips/a.mov" then
    { absolute := true, dirs := ["home", "projects", "demo", "clips"], name := "a.mov" }
  else if s = "/home/projects/demo/mask.png" then
    { absolute := true, dirs := ["home", "projects", "demo"], name := "mask.png" }
  else if s = "/home/movies/b.mov" then
    { absolute := true, dirs := ["home", "movies"], name := "b.mov" }
  else if s = "/home/projects/Demo/c.mov" then
    { absolute := true, dirs := ["home", "projects", "Demo"], name := "c.mov" }
  else if s = "/home/projects/demo/notes.txt" then
    { absolute := true, dirs := ["home", "projects", "demo"], name := "notes.txt" }
  else { absolute := false, dirs := [], name := s }

/-- An environment for the examples.  The user projects folder is
`/home/projects/` and holds no settings file, files named `a.mov`, `b.mov` and
`c.mov` are videos and `mask.png` is an image, every video loads, and a layer is
serialized as its id. -/
def exampleHost : Host (Option Int) where
  currentDirectory := { absolute := true, dirs := ["home"], name := "" }
  userProjectsPath := { absolute := true, dirs := ["home", "projects"], name := "" }
  forDirectory := fun name => { absolute := false, dirs := [name], name := "" }
  parsePath := exampleParsePath
  toLower := fun s => s
  mediaTypeMatches := fun p t =>
    (decide (t = "video") &&
      (decide (p.name = "a.mov") || decide (p.name = "b.mov") || decide (p.name = "c.mov"))) ||
    (decide (t = "image") && decide (p.name = "mask.png"))
  openFile := fun _ => none
  parse := fun _ => none
  newLayer := fun a => { id := a + 100, calls := [] }
  loadVideo := fun _ _ => true
  layerToJSON := fun l => JsonValue.number l.id
  layerFromJSON := fun json l =>
    match json with
    | JsonValue.number n => some { l with id := n.toNat }
    | _ => none

/-- The example project after a press at `(101, 5)`, a point of the layer at
address 1 only: that layer is selected, dragged and on top. -/
def examplePressed : Project (Option Int) :=
  { exampleProject with
    dragging := some 1
    dragStart := { x := some 101, y := some 5, z := some 0 }
    lastSelectedLayer := some 1
    layers := [some 0, some 2, some 1] }

/-- The example project after a press at `(101, 5)` with the transform
`TRANSLATE` armed, followed by `deleteLayerAtPoint` at the same point. -/
def examplePressThenDelete : Option (Project (Option Int)) :=
  (mousePressed exactOps exampleApi
      { exampleProject with transform := TransformType.TRANSLATE }
      { x := some 101, y := some 5 }).bind fun Q =>
    deleteLayerAtPoint exampleApi Q { x := some 101, y := some 5, z := some 0 }

/-- The key codes of the host framework for the examples; every layer has a
video. -/
def exampleKeyEnv : KeyEnv (Option Int) where
  OF_KEY_DEL := 127
  OF_KEY_BACKSPACE := 8
  hasVideo := fun _ => true

/-- The example project outside edit mode, with the layer at address 0 selected
and dragged since a press at `(10, 10)` with the transform `TRANSLATE`. -/
def examplePresenting : Project (Option Int) :=
  { exampleProject with
    mode := Mode.PRESENT
    lastSelectedLayer := some 0
    dragging := some 0
    dragStart := { x := some 10, y := some 10, z := some 0 }
    transform := TransformType.TRANSLATE }

/-- The numbering of `UIButtonType` in the order of the constructor of
`UserInterface`, from 0. -/
def exampleButtonValue : UIButtonType → Int
  | UIButtonType.BUTTON_OPEN_PROJECT => 0
  | UIButtonType.BUTTON_NEW_PROJECT => 1
  | UIButtonType.BUTTON_SAVE_PROJECT => 2
  | UIButtonType.BUTTON_INFO => 3
  | UIButtonType.BUTTON_TOGGLE_MODE => 4
  | UIButtonType.BUTTON_TOOL_BRUSH => 5
  | UIButtonType.BUTTON_TOOL_TRANSLATE => 6
  | UIButtonType.BUTTON_TOOL_ROTATE => 7
  | UIButtonType.BUTTON_TOOL_SCALE => 8

/-! ## Theorems -/

/-- The scan returns `a` exactly when `a` is the first entry of the scanned list
that passes the hit test. -/
theorem getLayerAtPointLoop_eq_some {F : Type} (api : LayerApi F) (heap : Addr → Layer F)
    (p : ofPoint F) (l : List LayerPtr) (a : Addr) :
    getLayerAtPointLoop api heap p l = some a ↔
      ∃ pre post, l = pre ++ some a :: post ∧ api.hitTest (heap a) p = true ∧
        ∀ b, some b ∈ pre → api.hitTest (heap b) p = false := by
  induction l with
  | nil => simp [getLayerAtPointLoop]
  | cons x rest ih =>
    cases x with
    | none =>
      simp only [getLayerAtPointLoop, ih]
      constructor
      · rintro ⟨pre, post, h1, h2, h3⟩
        refine ⟨none :: pre, post, by simp [h1], h2, ?_⟩
        intro b hb
        simp at hb
        exact h3 b hb
      · rintro ⟨pre, post, h1, h2, h3⟩
        cases pre with
        | nil => simp at h1
        | cons y pre =>
          simp at h1
          refine ⟨pre, post, h1.2, h2, ?_⟩
          intro b hb
          exact h3 b (by simp [hb])
    | some c =>
      simp only [getLayerAtPointLoop]
      by_cases hc : api.hitTest (heap c) p = true
      · rw [if_pos hc]
        constructor
        · intro h
          cases h
          exact ⟨[], rest, by simp, hc, by simp⟩
        · rintro ⟨pre, post, h1, h2, h3⟩
          cases pre with
          | nil => simp at h1; rw [h1.1]
          | cons y pre =>
            simp at h1
            have := h3 c (by simp [h1.1])
            simp [hc] at this
      · rw [if_neg hc, ih]
        simp only [Bool.not_eq_true] at hc
        constructor
        · rintro ⟨pre, post, h1, h2, h3⟩
          refine ⟨some c :: pre, post, by simp [h1], h2, ?_⟩
          intro b hb
          simp at hb
          rcases hb with hb | hb
          · rw [hb]; exact hc
          · exact h3 b hb
        · rintro ⟨pre, post, h1, h2, h3⟩
          cases pre with
          | nil => simp at h1; rw [h1.1, h2] at hc; simp at hc
          | cons y pre =>
            simp at h1
            refine ⟨pre, post, h1.2, h2, ?_⟩
            intro b hb
            exact h3 b (by simp [hb])

/-- The scan returns the empty pointer exactly when no layer of the scanned list
passes the hit test. -/
theorem getLayerAtPointLoop_eq_none {F : Type} (api : LayerApi F) (heap : Addr → Layer F)
    (p : ofPoint F) (l : List LayerPtr) :
    getLayerAtPointLoop api heap p l = none ↔
      ∀ b, some b ∈ l → api.hitTest (heap b) p = false := by
  induction l with
  | nil => simp [getLayerAtPointLoop]
  | cons x rest ih =>
    cases x with
    | none => simp [getLayerAtPointLoop, ih]
    | some c =>
      simp only [getLayerAtPointLoop]
      by_cases hc : api.hitTest (heap c) p = true
      · simp [hc]
      · simp only [Bool.not_eq_true] at hc
        simp [hc, ih]

/-- A list splits around the entry at index `i`. -/
theorem eq_take_cons_drop {α : Type} (l : List α) (i : Nat) (x : α) (h : l[i]? = some x) :
    l = l.take i ++ x :: l.drop (i + 1) := by
  obtain ⟨hi, hx⟩ := List.getElem?_eq_some.mp h
  rw [← hx, ← List.drop_eq_getElem_cons hi, List.take_append_drop]

/-- C1. `getLayerAtPoint` returns the entry of highest index whose hit test
succeeds, and the empty pointer exactly when no layer of the stack passes the
hit test. -/
theorem getLayerAtPoint_topmost {F : Type} (api : LayerApi F) (P : Project F)
    (p : ofPoint F) :
    (∀ a, getLayerAtPoint api P p = some a ↔
      ∃ i : Nat, P.layers[i]? = some (some a) ∧ api.hitTest (P.heap a) p = true ∧
        ∀ (j : Nat) (b : Addr), i < j → P.layers[j]? = some (some b) → api.hitTest (P.heap b) p = false) ∧
    (getLayerAtPoint api P p = none ↔
      ∀ b, some b ∈ P.layers → api.hitTest (P.heap b) p = false) ∧
    getLayerAtPoint api { P with layers := [] } p = none := by
  refine ⟨?_, ?_, rfl⟩
  · intro a
    unfold getLayerAtPoint
    rw [getLayerAtPointLoop_eq_some]
    constructor
    · rintro ⟨pre, post, h1, h2, h3⟩
      have hl : P.layers = post.reverse ++ some a :: pre.reverse := by
        have := congrArg List.reverse h1
        simpa using this
      refine ⟨post.length, ?_, h2, ?_⟩
      · rw [hl, List.getElem?_append_right (by simp)]
        simp
      · intro j b hj hb
        apply h3
        rw [hl] at hb
        rw [List.getElem?_append_right (by simp; omega)] at hb
        simp only [List.length_reverse] at hb
        obtain ⟨k, hk⟩ : ∃ k, j - post.length = k + 1 := ⟨j - post.length - 1, by omega⟩
        rw [hk] at hb
        simp only [List.getElem?_cons_succ] at hb
        have := List.getElem?_mem hb
        simpa using this
    · rintro ⟨i, h1, h2, h3⟩
      refine ⟨(P.layers.drop (i + 1)).reverse, (P.layers.take i).reverse, ?_, h2, ?_⟩
      · conv_lhs => rw [eq_take_cons_drop P.layers i (some a) h1]
        simp
      · intro b hb
        simp only [List.mem_reverse] at hb
        obtain ⟨k, hk⟩ := List.mem_iff_getElem?.mp hb
        rw [List.getElem?_drop] at hk
        exact h3 (i + 1 + k) b (by omega) hk
  · unfold getLayerAtPoint
    rw [getLayerAtPointLoop_eq_none]
    simp

/-- The example of C1: with the layer at address 0 at the bottom and the layer at
address 1 on top, both containing the point, the result is the layer on top. -/
theorem getLayerAtPoint_topmost_witness :
    getLayerAtPoint exampleApi { exampleProject with layers := [some 0, some 1] }
      ⟨some 0, some 7, some 0⟩ = some 1 :=
  ((getLayerAtPoint_topmost exampleApi { exampleProject with layers := [some 0, some 1] }
      ⟨some 0, some 7, some 0⟩).1 1).2
    ⟨1, rfl, by decide, fun j b hj hb => by
      obtain ⟨k, rfl⟩ : ∃ k, j = k + 2 := ⟨j - 2, by omega⟩
      simp at hb⟩

/-- The id test on a non-empty entry compares the two ids. -/
theorem matchesId_some {F : Type} (heap : Addr → Layer F) (a L : Addr) :
    matchesId heap (some a) L = decide ((heap a).id = (heap L).id) := rfl

/-- One iteration of the `LAYER_SHIFT_UP` loop on an entry that does not match and is
not the last one. -/
theorem shiftUpLoop_cons_nomatch {F : Type} (heap : Addr → Layer F) (L : Addr)
    (e : LayerPtr) (l : List LayerPtr) (hl : l ≠ []) (he : matchesId heap e L = false) :
    shiftUpLoop heap L (e :: l) = (shiftUpLoop heap L l).map (fun r => e :: r) := by
  cases l with
  | nil => exact absurd rfl hl
  | cons z rest => simp [shiftUpLoop, he]

/-- The `LAYER_SHIFT_UP` loop exchanges the first matching entry with its successor. -/
theorem shiftUpLoop_swap {F : Type} (heap : Addr → Layer F) (L : Addr)
    (pre post : List LayerPtr) (x y : LayerPtr)
    (hpre : ∀ e ∈ pre, matchesId heap e L = false) (hx : matchesId heap x L = true) :
    shiftUpLoop heap L (pre ++ x :: y :: post) = some (pre ++ y :: x :: post) := by
  induction pre with
  | nil => simp [shiftUpLoop, hx]
  | cons e pre ih =>
    rw [List.cons_append, shiftUpLoop_cons_nomatch heap L e _ (by simp) (hpre e (by simp)),
      ih (fun e he => hpre e (by simp [he]))]
    rfl

/-- The `LAYER_SHIFT_UP` loop never tests the last entry: without a match before it
the deque is unchanged. -/
theorem shiftUpLoop_last {F : Type} (heap : Addr → Layer F) (L : Addr)
    (pre : List LayerPtr) (x : LayerPtr)
    (hpre : ∀ e ∈ pre, matchesId heap e L = false) :
    shiftUpLoop heap L (pre ++ [x]) = some (pre ++ [x]) := by
  induction pre with
  | nil => simp [shiftUpLoop]
  | cons e pre ih =>
    rw [List.cons_append, shiftUpLoop_cons_nomatch heap L e _ (by simp) (hpre e (by simp)),
      ih (fun e he => hpre e (by simp [he]))]
    rfl

/-- One iteration of the `LAYER_SHIFT_DOWN` loop. -/
theorem shiftDownLoop_cons {F : Type} (heap : Addr → Layer F) (L : Addr)
    (prev x : LayerPtr) (rest : List LayerPtr) :
    shiftDownLoop heap L prev (x :: rest) =
      if matchesId heap x L then x :: prev :: rest
      else prev :: shiftDownLoop heap L x rest := by
  simp [shiftDownLoop]

/-- Without a match from `iter` on, the `LAYER_SHIFT_DOWN` loop changes nothing. -/
theorem shiftDownLoop_nomatch {F : Type} (heap : Addr → Layer F) (L : Addr)
    (l : List LayerPtr) (prev : LayerPtr)
    (hl : ∀ e ∈ l, matchesId heap e L = false) :
    shiftDownLoop heap L prev l = prev :: l := by
  induction l generalizing prev with
  | nil => simp [shiftDownLoop]
  | cons x rest ih =>
    rw [shiftDownLoop_cons, hl x (by simp), ih x (fun e he => hl e (by simp [he]))]
    simp

/-- The `LAYER_SHIFT_DOWN` loop exchanges the first matching entry with its
predecessor `w`. -/
theorem shiftDownLoop_swap {F : Type} (heap : Addr → Layer F) (L : Addr)
    (pre post front : List LayerPtr) (prev w x : LayerPtr)
    (hfront : prev :: pre = front ++ [w])
    (hpre : ∀ e ∈ pre, matchesId heap e L = false) (hx : matchesId heap x L = true) :
    shiftDownLoop heap L prev (pre ++ x :: post) = front ++ x :: w :: post := by
  induction pre generalizing prev front with
  | nil =>
    cases front with
    | nil =>
      simp at hfront
      simp [shiftDownLoop, hx, hfront]
    | cons f front =>
      have := congrArg List.length hfront
      simp at this
  | cons e pre ih =>
    cases front with
    | nil =>
      have := congrArg List.length hfront
      simp at this
    | cons f front =>
      simp only [List.cons_append, List.cons.injEq] at hfront
      rw [List.cons_append, shiftDownLoop_cons, hpre e (by simp),
        ih front e hfront.2 (fun e he => hpre e (by simp [he])), hfront.1]
      simp

/-- The search loop erases the first matching entry. -/
theorem eraseLoop_found {F : Type} (heap : Addr → Layer F) (L : Addr)
    (pre post : List LayerPtr) (x : LayerPtr)
    (hpre : ∀ e ∈ pre, matchesId heap e L = false) (hx : matchesId heap x L = true) :
    eraseLoop heap L (pre ++ x :: post) = some (pre ++ post) := by
  induction pre with
  | nil => simp [eraseLoop, hx]
  | cons e pre ih =>
    simp [eraseLoop, hpre e (by simp), ih (fun e he => hpre e (by simp [he]))]

/-- The search loop reaches the end when no entry matches. -/
theorem eraseLoop_nomatch {F : Type} (heap : Addr → Layer F) (L : Addr)
    (l : List LayerPtr) (hl : ∀ e ∈ l, matchesId heap e L = false) :
    eraseLoop heap L l = none := by
  induction l with
  | nil => rfl
  | cons e l ih =>
    simp [eraseLoop, hl e (by simp), ih (fun e he => hl e (by simp [he]))]

/-- With pairwise distinct ids, the id of `L` matches the entry carrying it and no
other entry. -/
theorem matches_of_nodup {F : Type} (heap : Addr → Layer F) (pre post : List Addr) (a L : Addr)
    (hd : (idsOf heap (pre ++ a :: post)).Nodup) (hL : (heap L).id = (heap a).id) :
    (∀ e ∈ pre.map some, matchesId heap e L = false) ∧
      (∀ e ∈ post.map some, matchesId heap e L = false) ∧
      matchesId heap (some a) L = true := by
  simp only [idsOf, List.map_append, List.map_cons] at hd
  have h1 := List.nodup_middle.mp hd
  rw [List.nodup_cons] at h1
  have h2 := h1.1
  simp only [List.mem_append, List.mem_map, not_or, not_exists, not_and] at h2
  refine ⟨?_, ?_, ?_⟩
  · intro e he
    simp only [List.mem_map] at he
    obtain ⟨b, hb, rfl⟩ := he
    simp only [matchesId_some, decide_eq_false_iff_not, hL]
    exact fun h => h2.1 b hb h
  · intro e he
    simp only [List.mem_map] at he
    obtain ⟨b, hb, rfl⟩ := he
    simp only [matchesId_some, decide_eq_false_iff_not, hL]
    exact fun h => h2.2 b hb h
  · simp [matchesId_some, hL]

/-- `LAYER_SHIFT_UP` on an entry that has a successor. -/
theorem shiftLayers_up_mid {F : Type} (heap : Addr → Layer F) (pre post : List Addr)
    (a b L : Addr) (hd : (idsOf heap (pre ++ a :: b :: post)).Nodup)
    (hL : (heap L).id = (heap a).id) :
    shiftLayers heap ((pre ++ a :: b :: post).map some) (some L) LayerShift.LAYER_SHIFT_UP =
      some ((pre ++ b :: a :: post).map some) := by
  obtain ⟨h1, -, h3⟩ := matches_of_nodup heap pre (b :: post) a L hd hL
  simp only [shiftLayers, List.map_append, List.map_cons, if_true]
  rw [shiftUpLoop_swap heap L _ _ _ _ h1 h3]
  simp

/-- `LAYER_SHIFT_UP` on the last entry. -/
theorem shiftLayers_up_last {F : Type} (heap : Addr → Layer F) (pre : List Addr)
    (a L : Addr) (hd : (idsOf heap (pre ++ [a])).Nodup)
    (hL : (heap L).id = (heap a).id) :
    shiftLayers heap ((pre ++ [a]).map some) (some L) LayerShift.LAYER_SHIFT_UP =
      some ((pre ++ [a]).map some) := by
  obtain ⟨h1, -, -⟩ := matches_of_nodup heap pre [] a L hd hL
  simp only [shiftLayers, List.map_append, List.map_cons, List.map_nil, if_true]
  rw [shiftUpLoop_last heap L _ _ h1]
  simp

/-- `LAYER_SHIFT_DOWN` on an entry that has a predecessor. -/
theorem shiftLayers_down_mid {F : Type} (heap : Addr → Layer F) (pre post : List Addr)
    (w a L : Addr) (hd : (idsOf heap (pre ++ w :: a :: post)).Nodup)
    (hL : (heap L).id = (heap a).id) :
    shiftLayers heap ((pre ++ w :: a :: post).map some) (some L) LayerShift.LAYER_SHIFT_DOWN =
      some ((pre ++ a :: w :: post).map some) := by
  have hd2 : (idsOf heap ((pre ++ [w]) ++ a :: post)).Nodup := by simpa using hd
  obtain ⟨h1, -, h3⟩ := matches_of_nodup heap (pre ++ [w]) post a L hd2 hL
  have hsplit : (pre ++ w :: a :: post).map some =
      ((pre ++ [w]).map some) ++ some a :: post.map some := by simp
  rw [hsplit]
  cases hfront : (pre ++ [w]).map some with
  | nil => simp at hfront
  | cons first rest =>
    have hrest : ∀ e ∈ rest, matchesId heap e L = false := by
      intro e he
      exact h1 e (by rw [hfront]; simp [he])
    have hfront2 : first :: rest = pre.map some ++ [some w] := by
      rw [← hfront]; simp
    simp only [shiftLayers, List.cons_append]
    simp only [reduceCtorEq, if_false, if_true, Option.some_bind]
    rw [shiftDownLoop_swap heap L rest (post.map some) (pre.map some) first (some w) (some a)
      hfront2 hrest h3]
    simp

/-- `LAYER_SHIFT_DOWN` on the first entry. -/
theorem shiftLayers_down_first {F : Type} (heap : Addr → Layer F) (post : List Addr)
    (a L : Addr) (hd : (idsOf heap (a :: post)).Nodup)
    (hL : (heap L).id = (heap a).id) :
    shiftLayers heap ((a :: post).map some) (some L) LayerShift.LAYER_SHIFT_DOWN =
      some ((a :: post).map some) := by
  obtain ⟨-, h2, -⟩ := matches_of_nodup heap [] post a L hd hL
  simp only [shiftLayers, List.map_cons]
  simp only [reduceCtorEq, if_false, if_true, Option.some_bind]
  rw [shiftDownLoop_nomatch heap L _ _ h2]

/-- `LAYER_SHIFT_TOP` on an entry that is not the last one. -/
theorem shiftLayers_top_mid {F : Type} (heap : Addr → Layer F) (pre post : List Addr)
    (a z L : Addr) (hd : (idsOf heap (pre ++ a :: (post ++ [z]))).Nodup)
    (hL : (heap L).id = (heap a).id) :
    shiftLayers heap ((pre ++ a :: (post ++ [z])).map some) (some L)
        LayerShift.LAYER_SHIFT_TOP =
      some ((pre ++ (post ++ [z])).map some ++ [some L]) := by
  obtain ⟨h1, h2, h3⟩ := matches_of_nodup heap pre (post ++ [z]) a L hd hL
  have hz : (heap L).id ≠ (heap z).id := by
    have := h2 (some z) (by simp)
    simpa [matchesId_some, eq_comm] using this
  have hlast : ((pre ++ a :: (post ++ [z])).map some).getLast? = some (some z) := by
    have : (pre ++ a :: (post ++ [z])).map some = (pre ++ a :: post).map some ++ [some z] := by
      simp
    rw [this, List.getLast?_append]
    simp
  simp only [shiftLayers]
  simp only [reduceCtorEq, if_false, if_true, Option.some_bind, hlast]
  rw [if_pos hz]
  have hsplit : (pre ++ a :: (post ++ [z])).map some =
      pre.map some ++ some a :: (post ++ [z]).map some := by simp
  rw [hsplit, eraseLoop_found heap L _ _ _ h1 h3]
  simp

/-- `LAYER_SHIFT_TOP` on the last entry. -/
theorem shiftLayers_top_last {F : Type} (heap : Addr → Layer F) (pre : List Addr)
    (a L : Addr) (hL : (heap L).id = (heap a).id) :
    shiftLayers heap ((pre ++ [a]).map some) (some L) LayerShift.LAYER_SHIFT_TOP =
      some ((pre ++ [a]).map some) := by
  have hlast : ((pre ++ [a]).map some).getLast? = some (some a) := by
    simp [List.getLast?_append]
  simp only [shiftLayers]
  simp only [reduceCtorEq, if_false, if_true, Option.some_bind, hlast]
  rw [if_neg (by simp [hL])]

/-- `LAYER_SHIFT_BOTTOM` on an entry that is not the first one. -/
theorem shiftLayers_bottom_mid {F : Type} (heap : Addr → Layer F) (pre post : List Addr)
    (f a L : Addr) (hd : (idsOf heap (f :: pre ++ a :: post)).Nodup)
    (hL : (heap L).id = (heap a).id) :
    shiftLayers heap ((f :: pre ++ a :: post).map some) (some L)
        LayerShift.LAYER_SHIFT_BOTTOM =
      some (some L :: (f :: pre ++ post).map some) := by
  obtain ⟨h1, h2, h3⟩ := matches_of_nodup heap (f :: pre) post a L hd hL
  have hf : (heap L).id ≠ (heap f).id := by
    have := h1 (some f) (by simp)
    simpa [matchesId_some, eq_comm] using this
  simp only [shiftLayers]
  simp only [reduceCtorEq, if_false, if_true, Option.some_bind, List.cons_append, List.map_cons,
    List.head?_cons]
  rw [if_pos hf]
  have hsplit : some f :: List.map some (pre ++ a :: post) =
      (f :: pre).map some ++ some a :: post.map some := by simp
  rw [hsplit, eraseLoop_found heap L _ _ _ h1 h3]
  simp

/-- `LAYER_SHIFT_BOTTOM` on the first entry. -/
theorem shiftLayers_bottom_first {F : Type} (heap : Addr → Layer F) (post : List Addr)
    (a L : Addr) (hL : (heap L).id = (heap a).id) :
    shiftLayers heap ((a :: post).map some) (some L) LayerShift.LAYER_SHIFT_BOTTOM =
      some ((a :: post).map some) := by
  simp only [shiftLayers]
  simp only [reduceCtorEq, if_false, if_true, Option.some_bind, List.map_cons, List.head?_cons]
  rw [if_neg (by simp [hL])]

/-- Reading a list in which two neighbours have been exchanged. -/
theorem getElem_opt_swap {α : Type} (pre post : List α) (x y : α) (j : Nat) :
    (pre ++ y :: x :: post)[j]? =
      if j = pre.length then (pre ++ x :: y :: post)[pre.length + 1]?
      else if j = pre.length + 1 then (pre ++ x :: y :: post)[pre.length]?
      else (pre ++ x :: y :: post)[j]? := by
  by_cases hj : j < pre.length
  · rw [if_neg (by omega), if_neg (by omega), List.getElem?_append_left hj,
      List.getElem?_append_left hj]
  · obtain ⟨k, rfl⟩ : ∃ k, j = pre.length + k := ⟨j - pre.length, by omega⟩
    rw [List.getElem?_append_right (by omega), List.getElem?_append_right (by omega),
      List.getElem?_append_right (by omega), List.getElem?_append_right (by omega)]
    match k with
    | 0 => simp
    | 1 => simp
    | k + 2 =>
      rw [if_neg (by omega), if_neg (by omega)]
      simp only [Nat.add_sub_cancel_left, List.getElem?_cons_succ]

/-- Erasing the entry that follows `pre`. -/
theorem eraseIdx_append_cons {α : Type} (pre post : List α) (x : α) :
    (pre ++ x :: post).eraseIdx pre.length = pre ++ post := by
  induction pre with
  | nil => rfl
  | cons e pre ih => simp [List.eraseIdx, ih]

/-- The stack splits around the layer at index `i`. -/
theorem split_at_index {F : Type} (P : Project F) (as : List Addr) (a : Addr) (i : Nat)
    (hl : P.layers = as.map some) (ha : as[i]? = some a) :
    as = as.take i ++ a :: as.drop (i + 1) ∧ (as.take i).length = i ∧
      P.layers = (as.take i).map some ++ some a :: (as.drop (i + 1)).map some := by
  have h1 := eq_take_cons_drop as i a ha
  have hi := (List.getElem?_eq_some.mp ha).1
  refine ⟨h1, by simp; omega, ?_⟩
  rw [hl]
  conv_lhs => rw [h1]
  simp

/-- One `shiftLayer` call on a layer of the stack permutes the stack. -/
theorem shiftLayers_perm {F : Type} (heap : Addr → Layer F) (as : List Addr) (l : Addr)
    (shift : LayerShift) (hd : (idsOf heap as).Nodup) (hmem : l ∈ as) :
    ∃ bs : List Addr, shiftLayers heap (as.map some) (some l) shift = some (bs.map some) ∧
      bs.Perm as := by
  obtain ⟨pre, post, rfl⟩ := List.append_of_mem hmem
  cases shift with
  | LAYER_SHIFT_UP =>
    cases post with
    | nil => exact ⟨_, shiftLayers_up_last heap pre l l hd rfl, List.Perm.refl _⟩
    | cons b post =>
      exact ⟨_, shiftLayers_up_mid heap pre post l b l hd rfl,
        List.Perm.append_left pre (List.Perm.swap l b post)⟩
  | LAYER_SHIFT_DOWN =>
    rcases List.eq_nil_or_concat pre with rfl | ⟨front, w, hpre⟩
    · exact ⟨_, shiftLayers_down_first heap post l l (by simpa using hd) rfl, List.Perm.refl _⟩
    · rw [List.concat_eq_append] at hpre
      subst hpre
      refine ⟨front ++ l :: w :: post, ?_, ?_⟩
      · have := shiftLayers_down_mid heap front post w l l (by simpa using hd) rfl
        simpa using this
      · simpa using List.Perm.append_left front (List.Perm.swap w l post)
  | LAYER_SHIFT_TOP =>
    rcases List.eq_nil_or_concat post with rfl | ⟨back, z, hpost⟩
    · exact ⟨_, shiftLayers_top_last heap pre l l rfl, List.Perm.refl _⟩
    · rw [List.concat_eq_append] at hpost
      subst hpost
      refine ⟨(pre ++ (back ++ [z])) ++ [l], ?_, ?_⟩
      · have := shiftLayers_top_mid heap pre back l z l hd rfl
        simpa using this
      · have h1 : (pre ++ l :: (back ++ [z])).Perm (l :: (pre ++ (back ++ [z]))) :=
          List.perm_middle
        have h2 : ((pre ++ (back ++ [z])) ++ [l]).Perm (l :: (pre ++ (back ++ [z]))) :=
          List.perm_append_singleton l _
        exact h2.trans h1.symm
  | LAYER_SHIFT_BOTTOM =>
    cases pre with
    | nil => exact ⟨_, shiftLayers_bottom_first heap post l l rfl, List.Perm.refl _⟩
    | cons f pre =>
      refine ⟨l :: (f :: pre ++ post), ?_, List.perm_middle.symm⟩
      have := shiftLayers_bottom_mid heap pre post f l l hd rfl
      simpa using this

/-- C2. On a stack without empty pointers whose ids are pairwise distinct, every
finite sequence of `shiftLayer(layer, shift)` calls on layers of the stack, in
any of the four directions, runs to its end and leaves a permutation of the
original stack: the same length and the same layers, in another order. -/
theorem shiftLayerSeq_perm {F : Type} (P : Project F) (as : List Addr)
    (calls : List (LayerPtr × LayerShift))
    (hl : P.layers = as.map some) (hd : (idsOf P.heap as).Nodup)
    (hc : ∀ c ∈ calls, c.1 ∈ P.layers) :
    ∃ r, shiftLayerSeq P calls = some { P with layers := r } ∧
      r.Perm P.layers ∧ r.length = P.layers.length ∧
      (∃ bs : List Addr, r = bs.map some ∧ (idsOf P.heap bs).Perm (idsOf P.heap as)) := by
  induction calls generalizing P as with
  | nil =>
    exact ⟨P.layers, rfl, List.Perm.refl _, rfl, as, hl, List.Perm.refl _⟩
  | cons c calls ih =>
    obtain ⟨layer, shift⟩ := c
    have hmem : layer ∈ P.layers := hc (layer, shift) (by simp)
    rw [hl, List.mem_map] at hmem
    obtain ⟨l, hlas, rfl⟩ := hmem
    obtain ⟨bs, hbs, hperm⟩ := shiftLayers_perm P.heap as l shift hd hlas
    have hdb : (idsOf P.heap bs).Nodup := (List.Perm.map _ hperm).nodup_iff.mpr hd
    have hcb : ∀ c ∈ calls, c.1 ∈ ({ P with layers := bs.map some } : Project F).layers := by
      intro c hcin
      have := hc c (by simp [hcin])
      rw [hl] at this
      exact ((List.Perm.map some hperm).mem_iff).mpr this
    obtain ⟨r, hr1, hr2, hr3, cs, hr4, hr5⟩ :=
      ih { P with layers := bs.map some } bs rfl hdb hcb
    refine ⟨r, ?_, ?_, ?_, cs, hr4, ?_⟩
    · simp only [shiftLayerSeq, shiftLayer]
      rw [hl, hbs]
      exact hr1
    · rw [hl]
      exact hr2.trans (List.Perm.map some hperm)
    · rw [hr3, hl]
      simp [hperm.length_eq]
    · exact hr5.trans (List.Perm.map _ hperm)

/-- C2 on the example project: four calls, one in each direction, turn the stack
`[0, 1, 2]` into `[1, 2, 0]`. -/
theorem shiftLayerSeq_perm_witness :
    (idsOf exampleProject.heap [0, 1, 2]).Nodup ∧
    (shiftLayerSeq exampleProject
        [(some 0, LayerShift.LAYER_SHIFT_UP), (some 0, LayerShift.LAYER_SHIFT_TOP),
          (some 2, LayerShift.LAYER_SHIFT_DOWN), (some 1, LayerShift.LAYER_SHIFT_BOTTOM)]).map
      (fun Q => Q.layers) = some [some 1, some 2, some 0] ∧
    ∃ r, shiftLayerSeq exampleProject
        [(some 0, LayerShift.LAYER_SHIFT_UP), (some 0, LayerShift.LAYER_SHIFT_TOP),
          (some 2, LayerShift.LAYER_SHIFT_DOWN), (some 1, LayerShift.LAYER_SHIFT_BOTTOM)] =
        some { exampleProject with layers := r } ∧
      r.Perm exampleProject.layers ∧ r.length = exampleProject.layers.length ∧
      (∃ bs : List Addr, r = bs.map some ∧
        (idsOf exampleProject.heap bs).Perm (idsOf exampleProject.heap [0, 1, 2])) :=
  ⟨by decide, by decide,
    shiftLayerSeq_perm exampleProject [0, 1, 2]
      [(some 0, LayerShift.LAYER_SHIFT_UP), (some 0, LayerShift.LAYER_SHIFT_TOP),
        (some 2, LayerShift.LAYER_SHIFT_DOWN), (some 1, LayerShift.LAYER_SHIFT_BOTTOM)]
      rfl (by decide) (by decide)⟩

/-- C3. On a stack without empty pointers whose ids are pairwise distinct,
`shiftLayer(L, LAYER_SHIFT_UP)` for a layer `L` whose id is at index `i`
exchanges the entries at `i` and `i + 1` and leaves every other position as it
was when `i` is not the last index, and leaves the stack unchanged when `i` is
the last index. -/
theorem shiftLayer_up_swaps {F : Type} (P : Project F) (as : List Addr) (L a : Addr) (i : Nat)
    (hl : P.layers = as.map some) (hd : (idsOf P.heap as).Nodup)
    (ha : as[i]? = some a) (hL : (P.heap L).id = (P.heap a).id) :
    ∃ r, shiftLayer P (some L) LayerShift.LAYER_SHIFT_UP = some { P with layers := r } ∧
      (i + 1 < as.length → ∀ j : Nat, r[j]? =
        if j = i then P.layers[i + 1]? else if j = i + 1 then P.layers[i]?
        else P.layers[j]?) ∧
      (i + 1 = as.length → r = P.layers) := by
  obtain ⟨h1, h2, h3⟩ := split_at_index P as a i hl ha
  have hi := (List.getElem?_eq_some.mp ha).1
  rw [h1] at hd
  cases hpost : as.drop (i + 1) with
  | nil =>
    have hlen : i + 1 = as.length := by
      have := congrArg List.length hpost
      simp at this
      omega
    rw [hpost] at hd h3
    refine ⟨P.layers, ?_, fun h => by omega, fun _ => rfl⟩
    have := shiftLayers_up_last P.heap (as.take i) a L hd hL
    simp only [shiftLayer]
    rw [h3]
    simp only [List.map_append, List.map_cons, List.map_nil] at this ⊢
    rw [this]
    rfl
  | cons b post =>
    have hlen : i + 1 < as.length := by
      have := congrArg List.length hpost
      simp at this
      omega
    rw [hpost] at hd h3
    refine ⟨(as.take i).map some ++ some b :: some a :: post.map some, ?_, ?_,
      fun h => by omega⟩
    · have := shiftLayers_up_mid P.heap (as.take i) post a b L hd hL
      simp only [shiftLayer]
      rw [h3]
      simp only [List.map_append, List.map_cons] at this ⊢
      rw [this]
      rfl
    · intro _ j
      rw [h3]
      have := getElem_opt_swap ((as.take i).map some) (post.map some) (some a) (some b) j
      simp only [List.length_map, h2] at this
      exact this

/-- C3 on the example project: `LAYER_SHIFT_UP` of the layer at index 1 of
`[0, 1, 2]` gives `[0, 2, 1]`. -/
theorem shiftLayer_up_swaps_witness :
    (idsOf exampleProject.heap [0, 1, 2]).Nodup ∧
    (shiftLayer exampleProject (some 1) LayerShift.LAYER_SHIFT_UP).map (fun Q => Q.layers) =
      some [some 0, some 2, some 1] ∧
    ∃ r, shiftLayer exampleProject (some 1) LayerShift.LAYER_SHIFT_UP =
        some { exampleProject with layers := r } ∧
      (1 + 1 < [0, 1, 2].length → ∀ j : Nat, r[j]? =
        if j = 1 then exampleProject.layers[1 + 1]?
        else if j = 1 + 1 then exampleProject.layers[1]? else exampleProject.layers[j]?) ∧
      (1 + 1 = [0, 1, 2].length → r = exampleProject.layers) :=
  ⟨by decide, by decide,
    shiftLayer_up_swaps exampleProject [0, 1, 2] 1 1 1 rfl (by decide) rfl rfl⟩

/-- C4. On a stack without empty pointers whose ids are pairwise distinct,
`shiftLayer(L, LAYER_SHIFT_DOWN)` for a layer `L` whose id is at index `i`
exchanges the entries at `i` and `i - 1` and leaves every other position as it
was when `i > 0`, and leaves the stack unchanged when `i = 0`. -/
theorem shiftLayer_down_swaps {F : Type} (P : Project F) (as : List Addr) (L a : Addr)
    (i : Nat) (hl : P.layers = as.map some) (hd : (idsOf P.heap as).Nodup)
    (ha : as[i]? = some a) (hL : (P.heap L).id = (P.heap a).id) :
    ∃ r, shiftLayer P (some L) LayerShift.LAYER_SHIFT_DOWN = some { P with layers := r } ∧
      (0 < i → ∀ j : Nat, r[j]? =
        if j = i then P.layers[i - 1]? else if j = i - 1 then P.layers[i]?
        else P.layers[j]?) ∧
      (i = 0 → r = P.layers) := by
  obtain ⟨h1, h2, h3⟩ := split_at_index P as a i hl ha
  rw [h1] at hd
  rcases List.eq_nil_or_concat (as.take i) with hpre | ⟨pre, w, hpre⟩
  · have hi : i = 0 := by
      rw [hpre] at h2
      simpa using h2.symm
    rw [hpre] at hd h3
    refine ⟨P.layers, ?_, fun h => by omega, fun _ => rfl⟩
    have := shiftLayers_down_first P.heap (as.drop (i + 1)) a L (by simpa using hd) hL
    simp only [shiftLayer]
    rw [h3]
    simp only [List.map_cons, List.map_nil, List.nil_append] at this ⊢
    rw [this]
    rfl
  · rw [List.concat_eq_append] at hpre
    have hi : pre.length + 1 = i := by
      rw [hpre] at h2
      simpa using h2
    rw [hpre] at hd h3
    refine ⟨pre.map some ++ some a :: some w :: (as.drop (i + 1)).map some, ?_, ?_,
      fun h => by omega⟩
    · have := shiftLayers_down_mid P.heap pre (as.drop (i + 1)) w a L (by simpa using hd) hL
      simp only [shiftLayer]
      rw [h3]
      simp only [List.map_append, List.map_cons, List.map_nil, List.append_assoc,
        List.singleton_append] at this ⊢
      rw [this]
      rfl
    · intro _ j
      rw [h3]
      have := getElem_opt_swap (pre.map some) ((as.drop (i + 1)).map some) (some w) (some a) j
      simp only [List.length_map] at this
      simp only [List.map_append, List.map_cons, List.map_nil, List.append_assoc,
        List.singleton_append]
      rw [this]
      have e1 : i - 1 = pre.length := by omega
      rw [e1, ← hi]
      split_ifs <;> first | rfl | (exfalso; omega)

/-- C4 on the example project: `LAYER_SHIFT_DOWN` of the layer at index 1 of
`[0, 1, 2]` gives `[1, 0, 2]`. -/
theorem shiftLayer_down_swaps_witness :
    (idsOf exampleProject.heap [0, 1, 2]).Nodup ∧
    (shiftLayer exampleProject (some 1) LayerShift.LAYER_SHIFT_DOWN).map (fun Q => Q.layers) =
      some [some 1, some 0, some 2] ∧
    ∃ r, shiftLayer exampleProject (some 1) LayerShift.LAYER_SHIFT_DOWN =
        some { exampleProject with layers := r } ∧
      (0 < 1 → ∀ j : Nat, r[j]? =
        if j = 1 then exampleProject.layers[1 - 1]?
        else if j = 1 - 1 then exampleProject.layers[1]? else exampleProject.layers[j]?) ∧
      (1 = 0 → r = exampleProject.layers) :=
  ⟨by decide, by decide,
    shiftLayer_down_swaps exampleProject [0, 1, 2] 1 1 1 rfl (by decide) rfl rfl⟩

/-- C5. On a stack without empty pointers whose ids are pairwise distinct,
`shiftLayer(L, LAYER_SHIFT_TOP)` for a layer `L` whose id is at index `i` removes
the entry at `i` and appends `L` at the end, so the other layers keep their
relative order and the last entry carries the id of `L`; when `i` is the last
index the stack is unchanged. -/
theorem shiftLayer_top_moves {F : Type} (P : Project F) (as : List Addr) (L a : Addr)
    (i : Nat) (hl : P.layers = as.map some) (hd : (idsOf P.heap as).Nodup)
    (ha : as[i]? = some a) (hL : (P.heap L).id = (P.heap a).id) :
    ∃ r, shiftLayer P (some L) LayerShift.LAYER_SHIFT_TOP = some { P with layers := r } ∧
      r.dropLast = P.layers.eraseIdx i ∧
      (∃ t, r.getLast? = some (some t) ∧ (P.heap t).id = (P.heap L).id) ∧
      (i + 1 < as.length → r = P.layers.eraseIdx i ++ [some L]) ∧
      (i + 1 = as.length → r = P.layers) := by
  obtain ⟨h1, h2, h3⟩ := split_at_index P as a i hl ha
  have hi := (List.getElem?_eq_some.mp ha).1
  have herase : P.layers.eraseIdx i =
      (as.take i).map some ++ (as.drop (i + 1)).map some := by
    have := eraseIdx_append_cons ((as.take i).map some) ((as.drop (i + 1)).map some) (some a)
    rw [List.length_map, h2] at this
    rw [h3, this]
  rw [h1] at hd
  rcases List.eq_nil_or_concat (as.drop (i + 1)) with hpost | ⟨post, z, hpost⟩
  · have hlen : i + 1 = as.length := by
      have := congrArg List.length hpost
      simp at this
      omega
    rw [hpost] at hd h3 herase
    have hr : P.layers = (as.take i).map some ++ [some a] := by simpa using h3
    refine ⟨P.layers, ?_, ?_, ⟨a, ?_, hL.symm⟩, fun h => by omega, fun _ => rfl⟩
    · have := shiftLayers_top_last P.heap (as.take i) a L hL
      simp only [shiftLayer]
      rw [hr]
      simp only [List.map_append, List.map_cons, List.map_nil] at this ⊢
      rw [this]
      rfl
    · rw [herase]
      conv_lhs => rw [hr]
      simp
    · rw [hr]
      simp
  · rw [List.concat_eq_append] at hpost
    have hlen : i + 1 < as.length := by
      have := congrArg List.length hpost
      simp at this
      omega
    rw [hpost] at hd h3 herase
    refine ⟨((as.take i).map some ++ (post ++ [z]).map some) ++ [some L], ?_, ?_,
      ⟨L, by simp, rfl⟩, fun _ => by rw [herase], fun h => by omega⟩
    · have := shiftLayers_top_mid P.heap (as.take i) post a z L hd hL
      simp only [shiftLayer]
      rw [h3]
      simp only [List.map_append, List.map_cons, List.map_nil] at this ⊢
      rw [this]
      rfl
    · rw [herase]
      simp

/-- C5 on the example project: `LAYER_SHIFT_TOP` of the layer at index 0 of
`[0, 1, 2]` gives `[1, 2, 0]`. -/
theorem shiftLayer_top_moves_witness :
    (idsOf exampleProject.heap [0, 1, 2]).Nodup ∧
    (shiftLayer exampleProject (some 0) LayerShift.LAYER_SHIFT_TOP).map (fun Q => Q.layers) =
      some [some 1, some 2, some 0] ∧
    ∃ r, shiftLayer exampleProject (some 0) LayerShift.LAYER_SHIFT_TOP =
        some { exampleProject with layers := r } ∧
      r.dropLast = exampleProject.layers.eraseIdx 0 ∧
      (∃ t, r.getLast? = some (some t) ∧
        (exampleProject.heap t).id = (exampleProject.heap 0).id) ∧
      (0 + 1 < [0, 1, 2].length → r = exampleProject.layers.eraseIdx 0 ++ [some 0]) ∧
      (0 + 1 = [0, 1, 2].length → r = exampleProject.layers) :=
  ⟨by decide, by decide,
    shiftLayer_top_moves exampleProject [0, 1, 2] 0 0 0 rfl (by decide) rfl rfl⟩

/-- C6. On a stack without empty pointers whose ids are pairwise distinct,
`shiftLayer(L, LAYER_SHIFT_BOTTOM)` for a layer `L` whose id is at index `i`
removes the entry at `i` and inserts `L` at the front, so the other layers keep
their relative order and the first entry carries the id of `L`; when `i = 0` the
stack is unchanged. -/
theorem shiftLayer_bottom_moves {F : Type} (P : Project F) (as : List Addr) (L a : Addr)
    (i : Nat) (hl : P.layers = as.map some) (hd : (idsOf P.heap as).Nodup)
    (ha : as[i]? = some a) (hL : (P.heap L).id = (P.heap a).id) :
    ∃ r, shiftLayer P (some L) LayerShift.LAYER_SHIFT_BOTTOM = some { P with layers := r } ∧
      r.tail = P.layers.eraseIdx i ∧
      (∃ t, r.head? = some (some t) ∧ (P.heap t).id = (P.heap L).id) ∧
      (0 < i → r = some L :: P.layers.eraseIdx i) ∧
      (i = 0 → r = P.layers) := by
  obtain ⟨h1, h2, h3⟩ := split_at_index P as a i hl ha
  have herase : P.layers.eraseIdx i =
      (as.take i).map some ++ (as.drop (i + 1)).map some := by
    have := eraseIdx_append_cons ((as.take i).map some) ((as.drop (i + 1)).map some) (some a)
    rw [List.length_map, h2] at this
    rw [h3, this]
  rw [h1] at hd
  cases hpre : as.take i with
  | nil =>
    have hi : i = 0 := by
      rw [hpre] at h2
      simpa using h2.symm
    rw [hpre] at hd h3 herase
    have hr : P.layers = some a :: (as.drop (i + 1)).map some := by simpa using h3
    refine ⟨P.layers, ?_, ?_, ⟨a, ?_, hL.symm⟩, fun h => by omega, fun _ => rfl⟩
    · have := shiftLayers_bottom_first P.heap (as.drop (i + 1)) a L hL
      simp only [shiftLayer]
      rw [hr]
      simp only [List.map_cons] at this ⊢
      rw [this]
      rfl
    · rw [herase]
      conv_lhs => rw [hr]
      simp
    · rw [hr]
      simp
  | cons f pre =>
    have hi : 0 < i := by
      rw [hpre] at h2
      simp at h2
      omega
    rw [hpre] at hd h3 herase
    refine ⟨some L :: ((f :: pre).map some ++ (as.drop (i + 1)).map some), ?_, ?_,
      ⟨L, by simp, rfl⟩, fun _ => by rw [herase], fun h => by omega⟩
    · have := shiftLayers_bottom_mid P.heap pre (as.drop (i + 1)) f a L (by simpa using hd) hL
      simp only [shiftLayer]
      rw [h3]
      simp only [List.map_append, List.map_cons, List.cons_append] at this ⊢
      rw [this]
      rfl
    · rw [herase]
      simp

/-- C6 on the example project: `LAYER_SHIFT_BOTTOM` of the layer at index 2 of
`[0, 1, 2]` gives `[2, 0, 1]`. -/
theorem shiftLayer_bottom_moves_witness :
    (idsOf exampleProject.heap [0, 1, 2]).Nodup ∧
    (shiftLayer exampleProject (some 2) LayerShift.LAYER_SHIFT_BOTTOM).map (fun Q => Q.layers) =
      some [some 2, some 0, some 1] ∧
    ∃ r, shiftLayer exampleProject (some 2) LayerShift.LAYER_SHIFT_BOTTOM =
        some { exampleProject with layers := r } ∧
      r.tail = exampleProject.layers.eraseIdx 2 ∧
      (∃ t, r.head? = some (some t) ∧
        (exampleProject.heap t).id = (exampleProject.heap 2).id) ∧
      (0 < 2 → r = some 2 :: exampleProject.layers.eraseIdx 2) ∧
      (2 = 0 → r = exampleProject.layers) :=
  ⟨by decide, by decide,
    shiftLayer_bottom_moves exampleProject [0, 1, 2] 2 2 2 rfl (by decide) rfl rfl⟩

/-- `isCornerHovered` is false exactly when no layer of the stack reports a hovered
corner. -/
theorem isCornerHoveredLoop_eq_false {F : Type} (api : LayerApi F) (heap : Addr → Layer F)
    (p : ofPoint F) (l : List LayerPtr) :
    isCornerHoveredLoop api heap p l = false ↔
      ∀ b, some b ∈ l → api.getHoveredCorner (heap b) p = false := by
  induction l with
  | nil => simp [isCornerHoveredLoop]
  | cons x rest ih =>
    cases x with
    | none => simp [isCornerHoveredLoop, ih]
    | some c =>
      simp only [isCornerHoveredLoop]
      by_cases hc : api.getHoveredCorner (heap c) p = true
      · simp [hc]
      · simp only [Bool.not_eq_true] at hc
        simp [hc, ih]

/-- `LAYER_SHIFT_TOP` on the entry at index `i` of the stack itself. -/
theorem shiftLayers_top_self {F : Type} (heap : Addr → Layer F) (as : List Addr) (L : Addr)
    (i : Nat) (hd : (idsOf heap as).Nodup) (ha : as[i]? = some L) :
    shiftLayers heap (as.map some) (some L) LayerShift.LAYER_SHIFT_TOP =
      some ((as.eraseIdx i ++ [L]).map some) := by
  have h1 := eq_take_cons_drop as i L ha
  have hi := (List.getElem?_eq_some.mp ha).1
  have h2 : (as.take i).length = i := by simp; omega
  have herase : as.eraseIdx i = as.take i ++ as.drop (i + 1) := by
    have := eraseIdx_append_cons (as.take i) (as.drop (i + 1)) L
    rw [h2, ← h1] at this
    exact this
  rw [herase]
  rw [h1] at hd
  conv_lhs => rw [h1]
  rcases List.eq_nil_or_concat (as.drop (i + 1)) with hpost | ⟨post, z, hpost⟩
  · rw [hpost] at hd ⊢
    rw [shiftLayers_top_last heap (as.take i) L L rfl]
    simp
  · rw [List.concat_eq_append] at hpost
    rw [hpost] at hd ⊢
    rw [shiftLayers_top_mid heap (as.take i) post L z L hd rfl]
    simp

/-- C7. In edit mode, on a stack without empty pointers whose ids are pairwise
distinct, a press at a point where `getLayerAtPoint` returns `L` and no layer
reports a hovered corner sets `dragging` and `lastSelectedLayer` to `L`,
`dragStart` to the point, and moves `L` to the end of the stack, the other
layers keeping their order. -/
theorem mousePressed_begins_drag {F : Type} (fo : FloatOps F) (api : LayerApi F)
    (P : Project F) (as : List Addr) (L : Addr) (mouse : ofVec2f F)
    (hmode : P.mode = Mode.EDIT)
    (hl : P.layers = as.map some) (hd : (idsOf P.heap as).Nodup)
    (hhit : getLayerAtPoint api P (mouse.toPoint fo) = some L)
    (hcorner : ∀ b, some b ∈ P.layers →
      api.getHoveredCorner (P.heap b) (mouse.toPoint fo) = false) :
    ∃ i : Nat, as[i]? = some L ∧
      mousePressed fo api P mouse =
        some { P with
          dragging := some L
          dragStart := mouse.toPoint fo
          lastSelectedLayer := some L
          layers := (as.eraseIdx i ++ [L]).map some } := by
  have hmem : some L ∈ P.layers := by
    have := (getLayerAtPointLoop_eq_some api P.heap (mouse.toPoint fo) P.layers.reverse L).mp hhit
    obtain ⟨pre, post, h1, -, -⟩ := this
    have h2 : some L ∈ P.layers.reverse := by rw [h1]; simp
    simpa using h2
  rw [hl, List.mem_map] at hmem
  obtain ⟨l, hlas, hlL⟩ := hmem
  cases hlL
  obtain ⟨i, hi⟩ := List.mem_iff_getElem?.mp hlas
  refine ⟨i, hi, ?_⟩
  have hcor : isCornerHovered api P (mouse.toPoint fo) = false :=
    (isCornerHoveredLoop_eq_false api P.heap (mouse.toPoint fo) P.layers).mpr hcorner
  simp only [mousePressed, hmode, ne_eq, not_true_eq_false, if_false, hhit, hcor,
    Option.isSome_some, Bool.not_false, Bool.and_self, if_true, shiftLayer]
  rw [hl, shiftLayers_top_self P.heap as L i hd hi]
  rfl

/-- C7 on the example project: a press at `(101, 5)`, a point of the layer at
address 1 only, starts a drag of that layer and moves it to the top of the
stack. -/
theorem mousePressed_begins_drag_witness :
    getLayerAtPoint exampleApi exampleProject
      (ofVec2f.toPoint exactOps ⟨some 101, some 5⟩) = some 1 ∧
    (mousePressed exactOps exampleApi exampleProject ⟨some 101, some 5⟩).map
      (fun Q => (Q.layers, Q.dragging, Q.dragStart, Q.lastSelectedLayer)) =
      some ([some 0, some 2, some 1], some 1, ⟨some 101, some 5, some 0⟩, some 1) ∧
    ∃ i : Nat, [0, 1, 2][i]? = some 1 ∧
      mousePressed exactOps exampleApi exampleProject ⟨some 101, some 5⟩ =
        some { exampleProject with
          dragging := some 1
          dragStart := ofVec2f.toPoint exactOps ⟨some 101, some 5⟩
          lastSelectedLayer := some 1
          layers := (([0, 1, 2] : List Addr).eraseIdx i ++ [1]).map some } :=
  ⟨by decide, by decide,
    mousePressed_begins_drag exactOps exampleApi exampleProject [0, 1, 2] 1
      ⟨some 101, some 5⟩ rfl rfl (by decide) (by decide) (fun _ _ => rfl)⟩

/-- The layer that receives a call has it appended to its calls. -/
theorem callLayer_self {F : Type} (heap : Addr → Layer F) (a : Addr) (c : LayerCall F) :
    callLayer heap a c a = { heap a with calls := (heap a).calls ++ [c] } := by
  simp [callLayer]

/-- A call on one layer leaves the other layers as they are. -/
theorem callLayer_other {F : Type} (heap : Addr → Layer F) (a b : Addr) (c : LayerCall F)
    (h : b ≠ a) : callLayer heap a c b = heap b := by
  simp [callLayer, Function.update_noteq h]

/-- C8. With `dragging = L` and the transform `TRANSLATE`, `mouseReleased` at `q`
makes exactly one call on `L`, `translate(q - dragStart)` taken componentwise on
`ofPoint`, makes no call on any other layer, leaves the stack as it is and
clears `dragging`. -/
theorem mouseReleased_translate {F : Type} (fo : FloatOps F) (api : LayerApi F)
    (P : Project F) (L : Addr) (q : ofVec2f F)
    (hdrag : P.dragging = some L) (ht : P.transform = TransformType.TRANSLATE) :
    mouseReleased fo api P q =
        { P with
          heap := callLayer P.heap L (LayerCall.translate ((q.toPoint fo).sub fo P.dragStart))
          dragging := none } ∧
      ((mouseReleased fo api P q).heap L).calls = (P.heap L).calls ++
        [LayerCall.translate
          { x := fo.sub q.x P.dragStart.x, y := fo.sub q.y P.dragStart.y,
            z := fo.sub fo.zero P.dragStart.z }] ∧
      (∀ b, b ≠ L → (mouseReleased fo api P q).heap b = P.heap b) ∧
      (mouseReleased fo api P q).layers = P.layers ∧
      (mouseReleased fo api P q).dragging = none := by
  have h : mouseReleased fo api P q =
      { P with
        heap := callLayer P.heap L (LayerCall.translate ((q.toPoint fo).sub fo P.dragStart))
        dragging := none } := by
    simp [mouseReleased, hdrag, ht]
  refine ⟨h, ?_, ?_, ?_, ?_⟩
  · rw [h]
    simp [callLayer_self, ofPoint.sub, ofVec2f.toPoint]
  · intro b hb
    rw [h]
    exact callLayer_other P.heap L b _ hb
  · rw [h]
  · rw [h]

/-- The example of C8: a drag of the layer at address 1 that started at
`(10, 10)` and is released at `(15, 18)` translates that layer by `(5, 8)`. -/
theorem mouseReleased_translate_witness :
    (exampleDrag TransformType.TRANSLATE ⟨some 10, some 10, some 0⟩).dragging = some 1 ∧
    (exampleDrag TransformType.TRANSLATE ⟨some 10, some 10, some 0⟩).transform =
      TransformType.TRANSLATE ∧
    ((mouseReleased exactOps exampleApi
        (exampleDrag TransformType.TRANSLATE ⟨some 10, some 10, some 0⟩)
        ⟨some 15, some 18⟩).heap 1).calls =
      [LayerCall.translate ⟨some 5, some 8, some 0⟩] ∧
    (mouseReleased exactOps exampleApi
        (exampleDrag TransformType.TRANSLATE ⟨some 10, some 10, some 0⟩)
        ⟨some 15, some 18⟩).dragging = none :=
  have h := mouseReleased_translate exactOps exampleApi
    (exampleDrag TransformType.TRANSLATE ⟨some 10, some 10, some 0⟩) 1 ⟨some 15, some 18⟩ rfl rfl
  ⟨rfl, rfl, h.2.1, h.2.2.2.2⟩

/-- C9. With `dragging = L`, the transform `SCALE` and `dragStart` different from
the centroid `c` of `L`, `mouseReleased` at `q` makes exactly one call on `L`,
`scale(c.distance(q) / c.distance(dragStart))`, makes no call on any other layer
and clears `dragging`. -/
theorem mouseReleased_scale_ratio {F : Type} (fo : FloatOps F) (api : LayerApi F)
    (P : Project F) (L : Addr) (q : ofVec2f F)
    (hdrag : P.dragging = some L) (ht : P.transform = TransformType.SCALE)
    (_hne : P.dragStart.toVec2f ≠ api.getCentroid (P.heap L)) :
    mouseReleased fo api P q =
        { P with
          heap := callLayer P.heap L (LayerCall.scale
            (fo.div (fo.distance (api.getCentroid (P.heap L)) q)
              (fo.distance (api.getCentroid (P.heap L)) P.dragStart.toVec2f)))
          dragging := none } ∧
      ((mouseReleased fo api P q).heap L).calls = (P.heap L).calls ++
        [LayerCall.scale
          (fo.div (fo.distance (api.getCentroid (P.heap L)) q)
            (fo.distance (api.getCentroid (P.heap L)) P.dragStart.toVec2f))] ∧
      (∀ b, b ≠ L → (mouseReleased fo api P q).heap b = P.heap b) ∧
      (mouseReleased fo api P q).layers = P.layers ∧
      (mouseReleased fo api P q).dragging = none := by
  have h : mouseReleased fo api P q =
      { P with
        heap := callLayer P.heap L (LayerCall.scale
          (fo.div (fo.distance (api.getCentroid (P.heap L)) q)
            (fo.distance (api.getCentroid (P.heap L)) P.dragStart.toVec2f)))
        dragging := none } := by
    simp [mouseReleased, hdrag, ht]
  refine ⟨h, ?_, ?_, ?_, ?_⟩
  · rw [h]
    simp [callLayer_self]
  · intro b hb
    rw [h]
    exact callLayer_other P.heap L b _ hb
  · rw [h]
  · rw [h]

/-- The example of C9: with the centroid at the origin, a drag that started at
`(10, 0)` and is released at `(20, 0)` scales the layer by the factor 2. -/
theorem mouseReleased_scale_ratio_witness :
    (exampleDrag TransformType.SCALE ⟨some 10, some 0, some 0⟩).dragging = some 1 ∧
    (exampleDrag TransformType.SCALE ⟨some 10, some 0, some 0⟩).transform =
      TransformType.SCALE ∧
    (exampleDrag TransformType.SCALE ⟨some 10, some 0, some 0⟩).dragStart.toVec2f ≠
      exampleApi.getCentroid
        ((exampleDrag TransformType.SCALE ⟨some 10, some 0, some 0⟩).heap 1) ∧
    ((mouseReleased exactOps exampleApi
        (exampleDrag TransformType.SCALE ⟨some 10, some 0, some 0⟩)
        ⟨some 20, some 0⟩).heap 1).calls = [LayerCall.scale (some 2)] ∧
    (mouseReleased exactOps exampleApi
        (exampleDrag TransformType.SCALE ⟨some 10, some 0, some 0⟩)
        ⟨some 20, some 0⟩).dragging = none :=
  have h := mouseReleased_scale_ratio exactOps exampleApi
    (exampleDrag TransformType.SCALE ⟨some 10, some 0, some 0⟩) 1 ⟨some 20, some 0⟩ rfl rfl
    (by decide)
  ⟨rfl, rfl, by decide, h.2.1, h.2.2.2.2⟩

/-- C10, as amended. With `dragging = L`, the transform `SCALE` and `dragStart`
equal to the centroid `c` of `L`, `mouseReleased` at `q` has no guard: the
divisor it evaluates is `c.distance(c)`, and it makes the one call
`scale(c.distance(q) / c.distance(c))` on `L` and clears `dragging`. -/
theorem mouseReleased_unguarded_divisor {F : Type} (fo : FloatOps F) (api : LayerApi F)
    (P : Project F) (L : Addr) (q : ofVec2f F)
    (hdrag : P.dragging = some L) (ht : P.transform = TransformType.SCALE)
    (heq : P.dragStart.toVec2f = api.getCentroid (P.heap L)) :
    scaleDivisor fo api P L =
        fo.distance (api.getCentroid (P.heap L)) (api.getCentroid (P.heap L)) ∧
      ((mouseReleased fo api P q).heap L).calls = (P.heap L).calls ++
        [LayerCall.scale
          (fo.div (fo.distance (api.getCentroid (P.heap L)) q) (scaleDivisor fo api P L))] ∧
      (mouseReleased fo api P q).dragging = none := by
  have h : mouseReleased fo api P q =
      { P with
        heap := callLayer P.heap L (LayerCall.scale
          (fo.div (fo.distance (api.getCentroid (P.heap L)) q)
            (fo.distance (api.getCentroid (P.heap L)) P.dragStart.toVec2f)))
        dragging := none } := by
    simp [mouseReleased, hdrag, ht]
  refine ⟨?_, ?_, ?_⟩
  · simp [scaleDivisor, heq]
  · rw [h]
    simp [callLayer_self, scaleDivisor]
  · rw [h]

/-- The amended C10 at a concrete input: a drag that started at the centroid
`(0, 0)` and is released at `(20, 0)`. -/
theorem mouseReleased_unguarded_divisor_witness :
    (exampleDrag TransformType.SCALE ⟨some 0, some 0, some 0⟩).dragStart.toVec2f =
      exampleApi.getCentroid
        ((exampleDrag TransformType.SCALE ⟨some 0, some 0, some 0⟩).heap 1) ∧
    ((mouseReleased exactOps exampleApi
        (exampleDrag TransformType.SCALE ⟨some 0, some 0, some 0⟩)
        ⟨some 20, some 0⟩).heap 1).calls =
      [LayerCall.scale (exactOps.div (some 20) (some 0))] :=
  have h := mouseReleased_unguarded_divisor exactOps exampleApi
    (exampleDrag TransformType.SCALE ⟨some 0, some 0, some 0⟩) 1 ⟨some 20, some 0⟩ rfl rfl rfl
  ⟨rfl, h.2.1⟩

/-- C10 fails on the code: in a drag that started at the centroid `(0, 0)` of the
layer and is released at `(20, 0)`, the divisor evaluated by the `SCALE` branch is
zero, the quotient has no value, and the layer is neither left without a call nor
scaled by a number. -/
theorem scale_guard_counterexample :
    (exampleDrag TransformType.SCALE ⟨some 0, some 0, some 0⟩).dragStart.toVec2f =
      exampleApi.getCentroid
        ((exampleDrag TransformType.SCALE ⟨some 0, some 0, some 0⟩).heap 1) ∧
    scaleDivisor exactOps exampleApi
      (exampleDrag TransformType.SCALE ⟨some 0, some 0, some 0⟩) 1 = some 0 ∧
    ((mouseReleased exactOps exampleApi
        (exampleDrag TransformType.SCALE ⟨some 0, some 0, some 0⟩)
        ⟨some 20, some 0⟩).heap 1).calls = [LayerCall.scale none] ∧
    ¬ (((mouseReleased exactOps exampleApi
          (exampleDrag TransformType.SCALE ⟨some 0, some 0, some 0⟩)
          ⟨some 20, some 0⟩).heap 1).calls =
        ((exampleDrag TransformType.SCALE ⟨some 0, some 0, some 0⟩).heap 1).calls ∨
      ∃ m : Int, ((mouseReleased exactOps exampleApi
          (exampleDrag TransformType.SCALE ⟨some 0, some 0, some 0⟩)
          ⟨some 20, some 0⟩).heap 1).calls =
        ((exampleDrag TransformType.SCALE ⟨some 0, some 0, some 0⟩).heap 1).calls ++
          [LayerCall.scale (some m)]) := by
  have hcalls : ((mouseReleased exactOps exampleApi
        (exampleDrag TransformType.SCALE ⟨some 0, some 0, some 0⟩)
        ⟨some 20, some 0⟩).heap 1).calls = [LayerCall.scale none] := by decide
  refine ⟨rfl, by decide, hcalls, ?_⟩
  rw [hcalls]
  rintro (h | ⟨m, h⟩)
  · exact absurd h (by decide)
  · have h2 : ((exampleDrag TransformType.SCALE ⟨some 0, some 0, some 0⟩).heap 1).calls = [] :=
      rfl
    rw [h2] at h
    simp at h

/-- An absolute path is its own absolute form. -/
theorem makeAbsolute_of_absolute (base p : Path) (h : p.absolute = true) :
    Path.makeAbsolute base p = p := by
  simp [Path.makeAbsolute, h]

/-- The depth test and the directory comparison of `isFileInProjectFolder`
succeed exactly when the first directory list starts the second one. -/
theorem dirs_compare_iff (pn qn : String) (pd od : List String) :
    (¬ pd.length > od.length ∧
        ∀ i, i < pd.length → i < od.length → pd.getD i pn = od.getD i qn) ↔
      ∃ rest, od = pd ++ rest := by
  induction pd generalizing od with
  | nil => simp
  | cons p pd ih =>
    cases od with
    | nil => simp
    | cons o od =>
      constructor
      · rintro ⟨h1, h2⟩
        have h0 := h2 0 (by simp) (by simp)
        simp only [List.getD_cons_zero] at h0
        have hrec := (ih od).mp ⟨by simp at h1 ⊢; omega, fun i hi hi2 => by
          have := h2 (i + 1) (by simp; omega) (by simp; omega)
          simpa using this⟩
        obtain ⟨rest, hrest⟩ := hrec
        exact ⟨rest, by rw [h0, hrest]; rfl⟩
      · rintro ⟨rest, hrest⟩
        simp only [List.cons_append, List.cons.injEq] at hrest
        obtain ⟨rfl, hod⟩ := hrest
        have hrec := (ih od).mpr ⟨rest, hod⟩
        refine ⟨by simp at hrec ⊢; omega, ?_⟩
        intro i hi hi2
        cases i with
        | zero => simp
        | succ i =>
          simp only [List.getD_cons_succ]
          exact hrec.2 i (by simp at hi; omega) (by simp at hi2; omega)

/-- The result of `isFileInProjectFolder` on absolute paths, on the directory
lists. -/
theorem isFileInProjectFolder_eq_true {F : Type} (host : Host F) (P : Project F)
    (path : Path) (hproj : P.path.absolute = true) (hpath : path.absolute = true) :
    isFileInProjectFolder host P path = true ↔ ∃ rest, path.dirs = P.path.dirs ++ rest := by
  rw [← dirs_compare_iff P.path.name path.name]
  simp only [isFileInProjectFolder, makeAbsolute_of_absolute _ _ hproj,
    makeAbsolute_of_absolute _ _ hpath, Path.depth, Path.directory]
  by_cases hlen : P.path.dirs.length > path.dirs.length
  · simp [hlen]
  · simp only [hlen, if_false, List.all_eq_true, List.mem_range, not_false_eq_true, true_and]
    constructor
    · intro h i hi hi2
      have := h i hi
      simp only [hi2, if_true, decide_eq_true_eq] at this
      exact this
    · intro h i hi
      by_cases hi2 : i < path.dirs.length
      · simp only [hi2, if_true, decide_eq_true_eq]
        exact h i hi hi2
      · simp only [hi2, if_false]

/-- C12. For an absolute project path and an absolute candidate path,
`isFileInProjectFolder` is true exactly when the directory components of the
project path are the first directory components of the candidate, compared as
strings; the candidate may have more directories, and a candidate with fewer
directories is rejected. -/
theorem isFileInProjectFolder_iff {F : Type} (host : Host F) (P : Project F)
    (candidate : Path) (hproj : P.path.absolute = true)
    (hcand : candidate.absolute = true) :
    (isFileInProjectFolder host P candidate = true ↔
      ∃ rest, candidate.dirs = P.path.dirs ++ rest) ∧
    (candidate.dirs.length < P.path.dirs.length →
      isFileInProjectFolder host P candidate = false) := by
  have h := isFileInProjectFolder_eq_true host P candidate hproj hcand
  refine ⟨h, ?_⟩
  intro hlen
  cases hres : isFileInProjectFolder host P candidate with
  | false => rfl
  | true =>
    obtain ⟨rest, hrest⟩ := h.mp hres
    rw [hrest] at hlen
    simp at hlen

/-- C12 on the example project, whose folder is `/home/projects/demo/`: a file in
the subfolder `clips` is inside, a file in `/home/movies/` is not, and a file in
`/home/projects/Demo/` is not, since the names are compared as they are
written. -/
theorem isFileInProjectFolder_iff_witness :
    isFileInProjectFolder exampleHost exampleProject
      (exampleParsePath "/home/projects/demo/clips/a.mov") = true ∧
    isFileInProjectFolder exampleHost exampleProject
      (exampleParsePath "/home/movies/b.mov") = false ∧
    isFileInProjectFolder exampleHost exampleProject
      (exampleParsePath "/home/projects/Demo/c.mov") = false ∧
    ((isFileInProjectFolder exampleHost exampleProject
        (exampleParsePath "/home/projects/demo/clips/a.mov") = true ↔
      ∃ rest, (exampleParsePath "/home/projects/demo/clips/a.mov").dirs =
        exampleProject.path.dirs ++ rest) ∧
    ((exampleParsePath "/home/projects/demo/clips/a.mov").dirs.length <
        exampleProject.path.dirs.length →
      isFileInProjectFolder exampleHost exampleProject
        (exampleParsePath "/home/projects/demo/clips/a.mov") = false)) :=
  ⟨by decide, by decide, by decide,
    isFileInProjectFolder_iff exampleHost exampleProject
      (exampleParsePath "/home/projects/demo/clips/a.mov") rfl rfl⟩

/-- Pushing plain directory names onto a path appends them. -/
theorem foldl_pushDirectory_plain (rest : List String) (p : Path)
    (h : ∀ d ∈ rest, d ≠ "" ∧ d ≠ "." ∧ d ≠ "..") :
    rest.foldl Path.pushDirectory p = { p with dirs := p.dirs ++ rest } := by
  induction rest generalizing p with
  | nil => simp
  | cons d rest ih =>
    obtain ⟨h1, h2, h3⟩ := h d (by simp)
    have hpush : p.pushDirectory d = { p with dirs := p.dirs ++ [d] } := by
      simp [Path.pushDirectory, h1, h2, h3]
    rw [List.foldl_cons, hpush, ih _ (fun e he => h e (by simp [he]))]
    simp

/-- The loop of `makeRelativeToProjectFolder` removes the directories of a project
path without file name from a path that starts with them and whose next
component is not empty. -/
theorem stripLoop_inside (otherName : String) (pd rest : List String)
    (h : rest.headD otherName ≠ "") :
    stripLoop "" otherName pd (pd ++ rest) = some ([], rest) := by
  induction pd with
  | nil =>
    simp only [List.nil_append, stripLoop]
    rw [if_neg (fun e => h e.symm)]
  | cons p pd ih => simp [stripLoop, ih]

/-- C13. For an absolute project path without file name and an absolute file path
`p` with plain directory names, a non-empty file name and directories that start
with those of the project path, `makeRelativeToProjectFolder` returns true and
leaves in `p` the relative path made of the remaining directories of `p` and its
file name; appending that path to the project path gives `p` back. -/
theorem makeRelativeToProjectFolder_inside {F : Type} (host : Host F) (P : Project F)
    (p : Path) (rest : List String)
    (hproj : P.path.absolute = true) (hdir : P.path.name = "")
    (hp : p.absolute = true) (hplain : p.Plain)
    (hinside : p.dirs = P.path.dirs ++ rest) (hfile : p.name ≠ "") :
    makeRelativeToProjectFolder host P p =
        some (true, { absolute := false, dirs := rest, name := p.name }) ∧
      P.path.append { absolute := false, dirs := rest, name := p.name } = p := by
  have hin : isFileInProjectFolder host P p = true :=
    (isFileInProjectFolder_eq_true host P p hproj hp).mpr ⟨rest, hinside⟩
  have hrest : ∀ d ∈ rest, d ≠ "" ∧ d ≠ "." ∧ d ≠ ".." := by
    intro d hd
    exact hplain d (by rw [hinside]; simp [hd])
  have hhead : rest.headD p.name ≠ "" := by
    cases rest with
    | nil => simpa using hfile
    | cons r rest => simpa using (hrest r (by simp)).1
  constructor
  · simp only [makeRelativeToProjectFolder, hin, if_true, makeAbsolute_of_absolute _ _ hproj,
      makeAbsolute_of_absolute _ _ hp]
    rw [hdir, hinside, stripLoop_inside p.name P.path.dirs rest hhead]
    simp only
    rw [foldl_pushDirectory_plain rest Path.empty hrest]
    simp [Path.empty, Path.setFileName]
  · have hmd : P.path.makeDirectory = P.path := by
      cases hP : P.path with
      | mk ab ds nm =>
        rw [hP] at hdir
        simp only at hdir
        subst hdir
        simp [Path.makeDirectory, Path.pushDirectory]
    cases hpp : p with
    | mk ab ds nm =>
      rw [hpp] at hinside hp
      simp only at hinside hp
      simp only [Path.append, hmd, hproj, ← hinside, hp]

/-- C13 on the example project: `/home/projects/demo/clips/a.mov` becomes
`clips/a.mov`. -/
theorem makeRelativeToProjectFolder_inside_witness :
    (exampleParsePath "/home/projects/demo/clips/a.mov").Plain ∧
    makeRelativeToProjectFolder exampleHost exampleProject
        (exampleParsePath "/home/projects/demo/clips/a.mov") =
      some (true, { absolute := false, dirs := ["clips"], name := "a.mov" }) ∧
    exampleProject.path.append { absolute := false, dirs := ["clips"], name := "a.mov" } =
      exampleParsePath "/home/projects/demo/clips/a.mov" :=
  have hplain : (exampleParsePath "/home/projects/demo/clips/a.mov").Plain := by
    unfold Path.Plain
    decide
  ⟨hplain,
    makeRelativeToProjectFolder_inside exampleHost exampleProject
      (exampleParsePath "/home/projects/demo/clips/a.mov") ["clips"] rfl rfl rfl hplain
      (by decide) (by decide)⟩

/-- C14. `makeRelativeToProjectFolder` returns false exactly when
`isFileInProjectFolder` is false, and whenever it returns false the path argument
is the one that was passed in. -/
theorem makeRelativeToProjectFolder_false_iff {F : Type} (host : Host F) (P : Project F)
    (p : Path) :
    ((∃ q, makeRelativeToProjectFolder host P p = some (false, q)) ↔
        isFileInProjectFolder host P p = false) ∧
      ∀ q, makeRelativeToProjectFolder host P p = some (false, q) → q = p := by
  cases hin : isFileInProjectFolder host P p with
  | false =>
    have h : makeRelativeToProjectFolder host P p = some (false, p) := by
      simp [makeRelativeToProjectFolder, hin]
    rw [h]
    refine ⟨⟨fun _ => rfl, fun _ => ⟨p, rfl⟩⟩, ?_⟩
    intro q hq
    simp only [Option.some.injEq, Prod.mk.injEq, true_and] at hq
    exact hq.symm
  | true =>
    have h : ∀ q, makeRelativeToProjectFolder host P p ≠ some (false, q) := by
      intro q
      simp only [makeRelativeToProjectFolder, hin, if_true]
      cases stripLoop (Path.makeAbsolute host.currentDirectory P.path).name
          (Path.makeAbsolute host.currentDirectory p).name
          (Path.makeAbsolute host.currentDirectory P.path).dirs
          (Path.makeAbsolute host.currentDirectory p).dirs with
      | none => simp
      | some r => simp
    refine ⟨⟨fun ⟨q, hq⟩ => absurd hq (h q), fun hf => by simp at hf⟩, ?_⟩
    intro q hq
    exact absurd hq (h q)

/-- C14 on the example project: for `/home/movies/b.mov`, which is outside the
project folder, the call returns false and the path is as it was. -/
theorem makeRelativeToProjectFolder_false_iff_witness :
    isFileInProjectFolder exampleHost exampleProject
      (exampleParsePath "/home/movies/b.mov") = false ∧
    makeRelativeToProjectFolder exampleHost exampleProject
        (exampleParsePath "/home/movies/b.mov") =
      some (false, exampleParsePath "/home/movies/b.mov") ∧
    ∀ q, makeRelativeToProjectFolder exampleHost exampleProject
        (exampleParsePath "/home/movies/b.mov") = some (false, q) →
      q = exampleParsePath "/home/movies/b.mov" :=
  ⟨by decide, by decide,
    (makeRelativeToProjectFolder_false_iff exampleHost exampleProject
      (exampleParsePath "/home/movies/b.mov")).2⟩

/-- C11, as amended. With `dragging = L` and the transform `ROTATE`, `mouseReleased`
at `q` makes exactly one call on `L`, `rotate(angle)` with
`int angle = -(deltaVec.angle(_dragStart - centroid))` and `deltaVec = q - centroid`:
the negation of the signed angle measured from `q - centroid` to
`dragStart - centroid`, converted to `int`.  It makes no call on any other layer
and clears `dragging`. -/
theorem mouseReleased_rotate {F : Type} (fo : FloatOps F) (api : LayerApi F)
    (P : Project F) (L : Addr) (q : ofVec2f F)
    (hdrag : P.dragging = some L) (ht : P.transform = TransformType.ROTATE) :
    ((mouseReleased fo api P q).heap L).calls = (P.heap L).calls ++
        [LayerCall.rotate (fo.toInt (fo.neg (fo.angle
          { x := fo.sub q.x (api.getCentroid (P.heap L)).x,
            y := fo.sub q.y (api.getCentroid (P.heap L)).y }
          { x := fo.sub P.dragStart.x (api.getCentroid (P.heap L)).x,
            y := fo.sub P.dragStart.y (api.getCentroid (P.heap L)).y })))] ∧
      (∀ b, b ≠ L → (mouseReleased fo api P q).heap b = P.heap b) ∧
      (mouseReleased fo api P q).layers = P.layers ∧
      (mouseReleased fo api P q).dragging = none := by
  have h : mouseReleased fo api P q =
      { P with
        heap := callLayer P.heap L (LayerCall.rotate (fo.toInt (fo.neg (fo.angle
          (q.sub fo (api.getCentroid (P.heap L)))
          (P.dragStart.sub fo ((api.getCentroid (P.heap L)).toPoint fo)).toVec2f))))
        dragging := none } := by
    simp [mouseReleased, hdrag, ht]
  refine ⟨?_, ?_, ?_, ?_⟩
  · rw [h]
    simp [callLayer_self, ofPoint.sub, ofVec2f.sub, ofVec2f.toPoint, ofPoint.toVec2f]
  · intro b hb
    rw [h]
    exact callLayer_other P.heap L b _ hb
  · rw [h]
  · rw [h]

/-- The amended C11 on the example of the claim: with the centroid at the origin,
a drag that started at `(10, 0)` and is released at `(0, 10)` rotates the layer
by `90`. -/
theorem mouseReleased_rotate_witness :
    (exampleDrag TransformType.ROTATE ⟨some 10, some 0, some 0⟩).dragging = some 1 ∧
    (exampleDrag TransformType.ROTATE ⟨some 10, some 0, some 0⟩).transform =
      TransformType.ROTATE ∧
    ((mouseReleased exactOps exampleApi
        (exampleDrag TransformType.ROTATE ⟨some 10, some 0, some 0⟩)
        ⟨some 0, some 10⟩).heap 1).calls = [LayerCall.rotate 90] ∧
    (mouseReleased exactOps exampleApi
        (exampleDrag TransformType.ROTATE ⟨some 10, some 0, some 0⟩)
        ⟨some 0, some 10⟩).dragging = none :=
  have h := mouseReleased_rotate exactOps exampleApi
    (exampleDrag TransformType.ROTATE ⟨some 10, some 0, some 0⟩) 1 ⟨some 0, some 10⟩ rfl rfl
  ⟨rfl, rfl, h.1, h.2.2.2⟩

/-- C11 fails on the code: with the centroid at the origin, a drag from `(10, 0)`
released at `(0, 10)` rotates the layer by `90`, while the negation of the signed
angle measured from `dragStart - c` to `q - c` is `-90`. -/
theorem rotate_direction_counterexample :
    ((mouseReleased exactOps exampleApi
        (exampleDrag TransformType.ROTATE ⟨some 10, some 0, some 0⟩)
        ⟨some 0, some 10⟩).heap 1).calls = [LayerCall.rotate 90] ∧
    statedRotation exactOps exampleApi
        (exampleDrag TransformType.ROTATE ⟨some 10, some 0, some 0⟩) 1
        ⟨some 0, some 10⟩ = some (-90) ∧
    ((mouseReleased exactOps exampleApi
        (exampleDrag TransformType.ROTATE ⟨some 10, some 0, some 0⟩)
        ⟨some 0, some 10⟩).heap 1).calls ≠
      [LayerCall.rotate (exactOps.toInt (statedRotation exactOps exampleApi
        (exampleDrag TransformType.ROTATE ⟨some 10, some 0, some 0⟩) 1
        ⟨some 0, some 10⟩))] := by
  refine ⟨by decide, by decide, by decide⟩

/-- `std::find` followed by `erase` removes the first entry equal to `x`, at an
index `i`, from a deque that has such an entry. -/
theorem eraseFound_of_mem (x : LayerPtr) (l : List LayerPtr) (h : x ∈ l) :
    ∃ i : Nat, l[i]? = some x ∧ eraseFound x l = some (l.eraseIdx i) := by
  induction l with
  | nil => simp at h
  | cons y rest ih =>
    by_cases hy : y = x
    · exact ⟨0, by simp [hy], by simp [eraseFound, hy]⟩
    · have hrest : x ∈ rest := by
        rcases List.mem_cons.mp h with h1 | h1
        · exact absurd h1.symm hy
        · exact h1
      obtain ⟨i, hi1, hi2⟩ := ih hrest
      exact ⟨i + 1, by simp [hi1], by simp [eraseFound, hy, hi2]⟩

/-- The layer returned by `getLayerAtPoint` is an entry of the stack. -/
theorem getLayerAtPoint_mem {F : Type} (api : LayerApi F) (P : Project F) (p : ofPoint F)
    (L : Addr) (h : getLayerAtPoint api P p = some L) : some L ∈ P.layers := by
  obtain ⟨pre, post, h1, -, -⟩ :=
    (getLayerAtPointLoop_eq_some api P.heap p P.layers.reverse L).mp h
  have h2 : some L ∈ P.layers.reverse := by rw [h1]; simp
  simpa using h2

/-- Erasing the entry at index `i` of a list without repetition removes that
entry from the list. -/
theorem not_mem_eraseIdx_of_nodup {α : Type} (l : List α) (i : Nat) (x : α)
    (hn : l.Nodup) (hi : l[i]? = some x) : x ∉ l.eraseIdx i := by
  have h1 := eq_take_cons_drop l i x hi
  have hlen : (l.take i).length = i := by
    have := (List.getElem?_eq_some.mp hi).1
    simp; omega
  have h2 : l.eraseIdx i = l.take i ++ l.drop (i + 1) := by
    have := eraseIdx_append_cons (l.take i) (l.drop (i + 1)) x
    rw [hlen, ← h1] at this
    exact this
  rw [h2]
  rw [h1] at hn
  have h3 := List.nodup_middle.mp hn
  exact (List.nodup_cons.mp h3).1

/-- C15. In edit mode, when `getLayerAtPoint(p)` returns `L`, `deleteLayerAtPoint(p)`
erases one entry of the stack, an entry that refers to `L`: the length decreases
by one, the other entries keep their order, and `L` is no longer in a stack that
held no layer twice.  When no layer is hit at `p` the project is unchanged. -/
theorem deleteLayerAtPoint_removes {F : Type} (api : LayerApi F) (P : Project F)
    (p : ofPoint F) (hmode : P.mode = Mode.EDIT) :
    (∀ L, getLayerAtPoint api P p = some L →
      ∃ (i : Nat) (Q : Project F), P.layers[i]? = some (some L) ∧
        deleteLayerAtPoint api P p = some Q ∧
        Q.layers = P.layers.eraseIdx i ∧
        Q.layers.length + 1 = P.layers.length ∧
        Q.heap = P.heap ∧
        (P.layers.Nodup → some L ∉ Q.layers)) ∧
    (getLayerAtPoint api P p = none → deleteLayerAtPoint api P p = some P) := by
  constructor
  · intro L hL
    obtain ⟨i, hi1, hi2⟩ := eraseFound_of_mem (some L) P.layers (getLayerAtPoint_mem api P p L hL)
    have hlt := (List.getElem?_eq_some.mp hi1).1
    refine ⟨i,
      { P with
        layers := P.layers.eraseIdx i
        lastSelectedLayer :=
          match P.lastSelectedLayer with
          | some s => if (P.heap s).id = (P.heap L).id then none else some s
          | none => none },
      hi1, ?_, rfl, ?_, rfl, ?_⟩
    · simp only [deleteLayerAtPoint, hmode, ne_eq, not_true_eq_false, if_false, hL, hi2,
        Option.map_some']
    · simp only [List.length_eraseIdx, hlt, if_true]
      omega
    · intro hn
      exact not_mem_eraseIdx_of_nodup P.layers i (some L) hn hi1
  · intro hnone
    simp [deleteLayerAtPoint, hmode, hnone]

/-- C15 on the example project: a deletion at `(101, 5)`, a point of the layer at
address 1 only, leaves the stack `[0, 2]`, and a deletion at `(7, 7)`, a point of
no layer, leaves the stack as it is. -/
theorem deleteLayerAtPoint_removes_witness :
    exampleProject.mode = Mode.EDIT ∧
    (deleteLayerAtPoint exampleApi exampleProject ⟨some 101, some 5, some 0⟩).map
      (fun Q => Q.layers) = some [some 0, some 2] ∧
    (deleteLayerAtPoint exampleApi exampleProject ⟨some 7, some 7, some 0⟩).map
      (fun Q => Q.layers) = some [some 0, some 1, some 2] ∧
    ∃ (i : Nat) (Q : Project (Option Int)), exampleProject.layers[i]? = some (some 1) ∧
      deleteLayerAtPoint exampleApi exampleProject ⟨some 101, some 5, some 0⟩ = some Q ∧
      Q.layers = exampleProject.layers.eraseIdx i ∧
      Q.layers.length + 1 = exampleProject.layers.length ∧
      Q.heap = exampleProject.heap ∧
      (exampleProject.layers.Nodup → some 1 ∉ Q.layers) :=
  ⟨rfl, by decide, by decide,
    (deleteLayerAtPoint_removes exampleApi exampleProject ⟨some 101, some 5, some 0⟩ rfl).1 1
      (by decide)⟩

/-- Two layers of a stack with pairwise distinct ids that have the same id are
the same layer. -/
theorem eq_of_id_eq {F : Type} (heap : Addr → Layer F) (as : List Addr) (a b : Addr)
    (hd : (idsOf heap as).Nodup) (ha : a ∈ as) (hb : b ∈ as)
    (h : (heap a).id = (heap b).id) : a = b :=
  List.inj_on_of_nodup_map hd ha hb h

/-- C16. In edit mode, on a stack without empty pointers whose ids are pairwise
distinct and with `lastSelectedLayer = X` a layer of the stack: a
`deleteLayerAtPoint` that removes `X` leaves `lastSelectedLayer` empty, so that
`shiftLayer(direction)` then changes nothing, and a `deleteLayerAtPoint` that
removes another layer leaves `lastSelectedLayer = X`. -/
theorem deleteLayerAtPoint_selection {F : Type} (api : LayerApi F) (P : Project F)
    (as : List Addr) (X : Addr) (p : ofPoint F) (hmode : P.mode = Mode.EDIT)
    (hl : P.layers = as.map some) (hd : (idsOf P.heap as).Nodup) (hX : X ∈ as)
    (hsel : P.lastSelectedLayer = some X) :
    (getLayerAtPoint api P p = some X →
      ∃ Q, deleteLayerAtPoint api P p = some Q ∧ some X ∉ Q.layers ∧
        Q.lastSelectedLayer = none ∧ ∀ d, shiftLastSelectedLayer Q d = some Q) ∧
    (∀ L, getLayerAtPoint api P p = some L → L ≠ X →
      ∃ Q, deleteLayerAtPoint api P p = some Q ∧ some L ∉ Q.layers ∧
        Q.lastSelectedLayer = some X) := by
  have hnodup : P.layers.Nodup := by
    rw [hl]
    have h1 : as.Nodup := List.Nodup.of_map _ hd
    exact h1.map (Option.some_injective _)
  constructor
  · intro hhit
    obtain ⟨i, hi1, hi2⟩ :=
      eraseFound_of_mem (some X) P.layers (getLayerAtPoint_mem api P p X hhit)
    refine ⟨{ P with layers := P.layers.eraseIdx i, lastSelectedLayer := none }, ?_,
      not_mem_eraseIdx_of_nodup P.layers i (some X) hnodup hi1, rfl, fun d => rfl⟩
    simp [deleteLayerAtPoint, hmode, hhit, hi2, hsel]
  · intro L hhit hne
    have hmem := getLayerAtPoint_mem api P p L hhit
    obtain ⟨i, hi1, hi2⟩ := eraseFound_of_mem (some L) P.layers hmem
    have hL : L ∈ as := by
      rw [hl, List.mem_map] at hmem
      obtain ⟨b, hb, hbL⟩ := hmem
      cases hbL
      exact hb
    have hid : (P.heap X).id ≠ (P.heap L).id := fun h =>
      hne (eq_of_id_eq P.heap as X L hd hX hL h).symm
    refine ⟨{ P with layers := P.layers.eraseIdx i, lastSelectedLayer := some X }, ?_,
      not_mem_eraseIdx_of_nodup P.layers i (some L) hnodup hi1, rfl⟩
    simp [deleteLayerAtPoint, hmode, hhit, hi2, hsel, hid]

/-- The example of C16: a press on the layer at address 1 selects it, and the
deletion of that layer leaves no layer selected. -/
theorem deleteLayerAtPoint_selection_witness :
    mousePressed exactOps exampleApi exampleProject ⟨some 101, some 5⟩ =
      some examplePressed ∧
    examplePressed.lastSelectedLayer = some 1 ∧
    getLayerAtPoint exampleApi examplePressed ⟨some 101, some 5, some 0⟩ = some 1 ∧
    (deleteLayerAtPoint exampleApi examplePressed ⟨some 101, some 5, some 0⟩).map
      (fun Q => (Q.layers, Q.lastSelectedLayer)) = some ([some 0, some 2], none) ∧
    ∃ Q, deleteLayerAtPoint exampleApi examplePressed ⟨some 101, some 5, some 0⟩ = some Q ∧
      some 1 ∉ Q.layers ∧ Q.lastSelectedLayer = none ∧
      ∀ d, shiftLastSelectedLayer Q d = some Q :=
  ⟨rfl, rfl, by decide, by decide,
    (deleteLayerAtPoint_selection exampleApi examplePressed [0, 2, 1] 1
      ⟨some 101, some 5, some 0⟩ rfl rfl (by decide) (by decide) rfl).1 (by decide)⟩

/-- C17 on the code: after a press on the layer at address 1 of the example
project and a `deleteLayerAtPoint` at the same point, that layer has left the
stack and the selection, but `dragging` still refers to it, and `mouseReleased`
at `(111, 9)` translates it by `(10, 4)`. -/
theorem delete_keeps_dragging :
    examplePressThenDelete.map (fun Q =>
        (Q.layers, Q.lastSelectedLayer, Q.dragging,
          ((mouseReleased exactOps exampleApi Q ⟨some 111, some 9⟩).heap 1).calls)) =
      some ([some 0, some 2], none, some 1,
        [LayerCall.translate ⟨some 10, some 4, some 0⟩]) := by
  rfl

/-- C18. `dragEvent` leaves the project as it is when the application is not in
edit mode, when the file list is empty, when the media type of the first file is
neither video nor image, and when the first file is not inside the project
folder; and the files after the first one have no influence on the result. -/
theorem dragEvent_rejects {F : Type} (host : Host F) (api : LayerApi F) (P : Project F)
    (dragInfo : ofDragInfo F) (a : Addr) :
    ((P.mode ≠ Mode.EDIT ∨ dragInfo.files = [] ∨
        (∃ file rest, dragInfo.files = file :: rest ∧
          host.mediaTypeMatches
            (Path.withFileName (host.parsePath file).parent
              (host.toLower (host.parsePath file).name)) "video" = false ∧
          host.mediaTypeMatches
            (Path.withFileName (host.parsePath file).parent
              (host.toLower (host.parsePath file).name)) "image" = false) ∨
        (∃ file rest, dragInfo.files = file :: rest ∧
          isFileInProjectFolder host P (host.parsePath file) = false)) →
      dragEvent host api P dragInfo a = some P) ∧
    (∀ file rest,
      dragEvent host api P { files := file :: rest, position := dragInfo.position } a =
        dragEvent host api P { files := [file], position := dragInfo.position } a) := by
  constructor
  · rintro (h | h | ⟨file, rest, hf, hv, hi⟩ | ⟨file, rest, hf, hout⟩)
    · simp [dragEvent, h]
    · by_cases hm : P.mode = Mode.EDIT
      · simp [dragEvent, hm, h]
      · simp [dragEvent, hm]
    · by_cases hm : P.mode = Mode.EDIT
      · simp [dragEvent, hm, hf, hv, hi]
      · simp [dragEvent, hm]
    · by_cases hm : P.mode = Mode.EDIT
      · have hrel : makeRelativeToProjectFolder host P (host.parsePath file) =
            some (false, host.parsePath file) := by
          simp [makeRelativeToProjectFolder, hout]
        simp only [dragEvent, hm, ne_eq, not_true_eq_false, if_false, hf, hrel]
        split_ifs <;> rfl
      · simp [dragEvent, hm]
  · intro file rest
    rfl

/-- C18 on the example project: the drop of a video that lies outside the project
folder, alone or followed by a video inside it, changes nothing, and neither does
the drop of a text file. -/
theorem dragEvent_rejects_witness :
    isFileInProjectFolder exampleHost exampleProject
      (exampleHost.parsePath "/home/movies/b.mov") = false ∧
    (dragEvent exampleHost exampleApi exampleProject
        { files := ["/home/projects/demo/notes.txt"],
          position := ⟨some 0, some 0, some 0⟩ } 7).map (fun Q => Q.layers) =
      some [some 0, some 1, some 2] ∧
    dragEvent exampleHost exampleApi exampleProject
        { files := ["/home/movies/b.mov", "/home/projects/demo/clips/a.mov"],
          position := ⟨some 0, some 0, some 0⟩ } 7 = some exampleProject :=
  ⟨by decide, by decide,
    (dragEvent_rejects exampleHost exampleApi exampleProject
      { files := ["/home/movies/b.mov", "/home/projects/demo/clips/a.mov"],
        position := ⟨some 0, some 0, some 0⟩ } 7).1
      (Or.inr (Or.inr (Or.inr ⟨"/home/movies/b.mov", ["/home/projects/demo/clips/a.mov"],
        rfl, by decide⟩)))⟩

/-- The loop of `toJSON` from a value that already holds the array `done` under
the key `layers`. -/
theorem toJSONLoop_object {F : Type} (host : Host F) (heap : Addr → Layer F)
    (as : List Addr) (done : List JsonValue) :
    toJSONLoop host heap (JsonValue.object [("layers", JsonValue.array done)])
        (as.map some) =
      some (JsonValue.object
        [("layers", JsonValue.array (done ++ as.map fun a => host.layerToJSON (heap a)))]) := by
  induction as generalizing done with
  | nil => simp [toJSONLoop]
  | cons a as ih =>
    simp only [List.map_cons, toJSONLoop, JsonValue.appendTo, JsonValue.lookup, if_true,
      Option.getD_some, JsonValue.append, Option.map_some', JsonValue.setMember,
      Option.some_bind]
    rw [ih]
    simp

/-- The value that `toJSON` builds for a stack that is not empty: an object whose
member `layers` is the array of the serialized layers, in order. -/
theorem toJSONLoop_cons {F : Type} (host : Host F) (heap : Addr → Layer F)
    (a : Addr) (as : List Addr) :
    toJSONLoop host heap JsonValue.null ((a :: as).map some) =
      some (JsonValue.object
        [("layers", JsonValue.array ((a :: as).map fun b => host.layerToJSON (heap b)))]) := by
  simp only [List.map_cons, toJSONLoop, JsonValue.appendTo, JsonValue.append,
    Option.map_some', Option.some_bind]
  rw [toJSONLoop_object]
  simp

/-- The loop of `fromJSON` changes the heap only at the addresses it allocates. -/
theorem fromJSONLoop_heap_other {F : Type} (host : Host F) (alloc : Nat → Addr)
    (items : List JsonValue) (i : Nat) (P : Project F) (a : Addr)
    (ha : ∀ m, i ≤ m → alloc m ≠ a) :
    (fromJSONLoop host alloc i items P).heap a = P.heap a := by
  induction items generalizing i P with
  | nil => rfl
  | cons j rest ih =>
    simp only [fromJSONLoop]
    cases host.layerFromJSON j (host.newLayer (alloc i)) with
    | none => exact ih (i + 1) P (fun m hm => ha m (by omega))
    | some l =>
      simp only
      rw [ih (i + 1) _ (fun m hm => ha m (by omega))]
      exact Function.update_noteq (ha i (le_refl i)).symm _ _

/-- The loop of `fromJSON` on elements that all deserialize: one layer is appended
for each element, in order, at the allocated addresses, and each address holds
the deserialized layer. -/
theorem fromJSONLoop_all {F : Type} (host : Host F) (alloc : Nat → Addr)
    (des : Nat → Layer F) (hinj : Function.Injective alloc)
    (items : List JsonValue) (i : Nat) (P : Project F)
    (hdes : ∀ (k : Nat) (j : JsonValue), items[k]? = some j →
      host.layerFromJSON j (host.newLayer (alloc (i + k))) = some (des (i + k))) :
    (fromJSONLoop host alloc i items P).layers =
        P.layers ++ (List.range items.length).map (fun k => some (alloc (i + k))) ∧
      ∀ k, k < items.length → (fromJSONLoop host alloc i items P).heap (alloc (i + k)) =
        des (i + k) := by
  induction items generalizing i P with
  | nil => simp [fromJSONLoop]
  | cons j rest ih =>
    have h0 := hdes 0 j (by simp)
    simp only [Nat.add_zero] at h0
    simp only [fromJSONLoop, h0]
    have hrest : ∀ (k : Nat) (j : JsonValue), rest[k]? = some j →
        host.layerFromJSON j (host.newLayer (alloc (i + 1 + k))) = some (des (i + 1 + k)) := by
      intro k j hk
      have := hdes (k + 1) j (by simpa using hk)
      rw [show i + (k + 1) = i + 1 + k by omega] at this
      exact this
    obtain ⟨ih1, ih2⟩ := ih (i + 1)
      { P with heap := Function.update P.heap (alloc i) (des i),
               layers := P.layers ++ [some (alloc i)] } hrest
    constructor
    · rw [ih1]
      simp only [List.length_cons, List.range_succ_eq_map, List.map_cons, List.map_map,
        List.append_assoc, List.singleton_append, Nat.add_zero]
      congr 2
      apply List.map_congr_left
      intro k _
      simp only [Function.comp_apply]
      rw [show i + 1 + k = i + (k + 1) by omega]
    · intro k hk
      cases k with
      | zero =>
        rw [fromJSONLoop_heap_other host alloc rest (i + 1) _ (alloc (i + 0))
          (fun m hm h => by have := hinj h; omega)]
        simp
      | succ k =>
        have := ih2 k (by simpa using hk)
        rw [show i + 1 + k = i + (k + 1) by omega] at this
        exact this

/-- C19. For a project whose stack holds the layers `L1..Ln` without empty pointer,
when `Layer::fromJSON` succeeds on each `Layer::toJSON(Li)` and gives a layer with
the same persisted attributes, `Project::fromJSON` on `Project::toJSON(project)`
into a project with an empty stack returns true and leaves a stack of exactly `n`
layers, the `k`-th of which has the persisted attributes of `Lk`. -/
theorem toJSON_fromJSON_roundtrip {F A : Type} (host : Host F) (P Fresh : Project F)
    (as : List Addr) (alloc : Nat → Addr) (attrs : Layer F → A) (des : Nat → Layer F)
    (hl : P.layers = as.map some) (hfresh : Fresh.layers = [])
    (hinj : Function.Injective alloc)
    (hdes : ∀ (k : Nat) (a : Addr), as[k]? = some a →
      host.layerFromJSON (host.layerToJSON (P.heap a)) (host.newLayer (alloc k)) =
          some (des k) ∧
        attrs (des k) = attrs (P.heap a)) :
    ∃ json Q, toJSON host P = some json ∧
      fromJSON host json Fresh alloc = some (true, Q) ∧
      Q.layers = (List.range as.length).map (fun k => some (alloc k)) ∧
      Q.layers.length = P.layers.length ∧
      ∀ (k : Nat) (a : Addr), as[k]? = some a →
        attrs (Q.heap (alloc k)) = attrs (P.heap a) := by
  cases as with
  | nil =>
    refine ⟨JsonValue.null, Fresh, ?_, ?_, ?_, ?_, ?_⟩
    · simp [toJSON, hl, toJSONLoop]
    · simp [fromJSON, JsonValue.isMember]
    · simp [hfresh]
    · simp [hfresh, hl]
    · intro k a hk
      simp at hk
  | cons a0 as0 =>
    have hitems : ∀ (k : Nat) (j : JsonValue),
        ((a0 :: as0).map fun a => host.layerToJSON (P.heap a))[k]? = some j →
        host.layerFromJSON j (host.newLayer (alloc (0 + k))) = some (des (0 + k)) := by
      intro k j hk
      rw [List.getElem?_map] at hk
      cases hak : (a0 :: as0)[k]? with
      | none => rw [hak] at hk; simp at hk
      | some a =>
        rw [hak] at hk
        simp only [Option.map_some', Option.some.injEq] at hk
        rw [← hk, Nat.zero_add]
        exact (hdes k a hak).1
    obtain ⟨h1, h2⟩ := fromJSONLoop_all host alloc des hinj
      ((a0 :: as0).map fun a => host.layerToJSON (P.heap a)) 0 Fresh hitems
    refine ⟨JsonValue.object
        [("layers", JsonValue.array ((a0 :: as0).map fun b => host.layerToJSON (P.heap b)))],
      fromJSONLoop host alloc 0 ((a0 :: as0).map fun a => host.layerToJSON (P.heap a)) Fresh,
      ?_, ?_, ?_, ?_, ?_⟩
    · unfold toJSON
      rw [hl]
      exact toJSONLoop_cons host P.heap a0 as0
    · simp only [fromJSON, JsonValue.isMember, JsonValue.get, JsonValue.lookup, if_true,
        Option.isSome_some, Option.getD_some]
    · rw [h1, hfresh]
      simp
    · rw [h1, hfresh, hl]
      simp
    · intro k a hk
      have hlt := (List.getElem?_eq_some.mp hk).1
      have := h2 k (by simpa using hlt)
      simp only [Nat.zero_add] at this
      rw [this]
      exact (hdes k a hk).2

/-- C19 on the example project: its three layers are serialized and read back
into a project with an empty stack, at the addresses 10, 11 and 12, with their
ids. -/
theorem toJSON_fromJSON_roundtrip_witness :
    ∃ json Q, toJSON exampleHost exampleProject = some json ∧
      fromJSON exampleHost json { exampleProject with layers := [] } (fun k => k + 10) =
        some (true, Q) ∧
      Q.layers = (List.range [0, 1, 2].length).map (fun k => some (k + 10)) ∧
      Q.layers.length = exampleProject.layers.length ∧
      ∀ (k : Nat) (a : Addr), [0, 1, 2][k]? = some a →
        (Q.heap (k + 10)).id = (exampleProject.heap a).id :=
  toJSON_fromJSON_roundtrip exampleHost exampleProject { exampleProject with layers := [] }
    [0, 1, 2] (fun k => k + 10) (fun l => l.id) (fun k => { id := k + 100, calls := [] })
    rfl rfl (fun a b h => Nat.add_right_cancel h)
    (fun k a h => by
      match k, h with
      | 0, h => cases h; exact ⟨rfl, rfl⟩
      | 1, h => cases h; exact ⟨rfl, rfl⟩
      | 2, h => cases h; exact ⟨rfl, rfl⟩
      | k + 3, h => simp at h)

/-- C20, as amended. When `load(name)` fails, because the settings file cannot be
opened or does not parse, it returns false and leaves the layer stack and the
layers as they were, `_path` is the folder `name` of the user projects folder,
and `_isLoaded` is false. -/
theorem load_failure {F : Type} (host : Host F) (P : Project F) (name : String)
    (alloc : Nat → Addr)
    (hfail :
      host.openFile (Path.withFileName
          (Path.resolve host.userProjectsPath (host.forDirectory name))
          (name ++ FILE_EXTENSION)) = none ∨
      ∃ content, host.openFile (Path.withFileName
          (Path.resolve host.userProjectsPath (host.forDirectory name))
          (name ++ FILE_EXTENSION)) = some content ∧ host.parse content = none) :
    load host P name alloc =
        some (false,
          { P with
            path := Path.resolve host.userProjectsPath (host.forDirectory name)
            isLoaded := false }) ∧
      ∀ Q, load host P name alloc = some (false, Q) →
        Q.layers = P.layers ∧ Q.heap = P.heap ∧ Q.isLoaded = false ∧
          Q.path = Path.resolve host.userProjectsPath (host.forDirectory name) := by
  have h : load host P name alloc =
      some (false,
        { P with
          path := Path.resolve host.userProjectsPath (host.forDirectory name)
          isLoaded := false }) := by
    rcases hfail with h1 | ⟨content, h1, h2⟩
    · simp [load, h1]
    · simp [load, h1, h2]
  refine ⟨h, ?_⟩
  intro Q hQ
  rw [h] at hQ
  simp only [Option.some.injEq, Prod.mk.injEq, true_and] at hQ
  rw [← hQ]
  exact ⟨rfl, rfl, rfl, rfl⟩

/-- The amended C20 on the example project, whose user projects folder holds no
settings file: `load("other")` fails. -/
theorem load_failure_witness :
    exampleHost.openFile (Path.withFileName
        (Path.resolve exampleHost.userProjectsPath (exampleHost.forDirectory "other"))
        ("other" ++ FILE_EXTENSION)) = none ∧
    load exampleHost exampleProject "other" (fun k => k + 10) =
      some (false,
        { exampleProject with
          path := Path.resolve exampleHost.userProjectsPath (exampleHost.forDirectory "other")
          isLoaded := false }) :=
  ⟨rfl, (load_failure exampleHost exampleProject "other" (fun k => k + 10) (Or.inl rfl)).1⟩

/-- C20 fails on the code: the example project is loaded from
`/home/projects/demo/`, and a `load("other")` that fails for want of a settings
file returns false, keeps the stack, and leaves `_isLoaded` false and `_path` at
`/home/projects/other/`. -/
theorem load_failure_counterexample :
    exampleProject.isLoaded = true ∧
    exampleProject.path = { absolute := true, dirs := ["home", "projects", "demo"], name := "" } ∧
    (load exampleHost exampleProject "other" (fun k => k + 10)).map
        (fun r => (r.1, r.2.layers, r.2.isLoaded, r.2.path)) =
      some (false, [some 0, some 1, some 2], false,
        { absolute := true, dirs := ["home", "projects", "other"], name := "" }) ∧
    ¬ ((load exampleHost exampleProject "other" (fun k => k + 10)).map
        (fun r => (r.2.isLoaded, r.2.path)) =
      some (exampleProject.isLoaded, exampleProject.path)) := by
  refine ⟨rfl, rfl, by decide, by decide⟩

/-- The handlers that test the mode leave the project as it is outside edit mode:
`dragEvent`, `mousePressed`, and `keyPressed` for the deletion of a layer and the
clearing of a mask. -/
theorem gated_handlers_outside_edit {F : Type} (fo : FloatOps F) (api : LayerApi F)
    (host : Host F) (env : KeyEnv F) (P : Project F) (hmode : P.mode ≠ Mode.EDIT) :
    (∀ dragInfo a, dragEvent host api P dragInfo a = some P) ∧
    (∀ mouse, mousePressed fo api P mouse = some P) ∧
    (∀ p, deleteLayerAtPoint api P p = some P) ∧
    (∀ p, clearMaskAtPoint api P p = P) ∧
    (∀ key : KeyInput F, key.key = env.OF_KEY_DEL ∨ key.key = env.OF_KEY_BACKSPACE →
      key.key ≠ 120 → keyPressed fo api env P key = some P) := by
  refine ⟨?_, ?_, ?_, ?_, ?_⟩
  · intro dragInfo a
    simp [dragEvent, hmode]
  · intro mouse
    simp [mousePressed, hmode]
  · intro p
    simp [deleteLayerAtPoint, hmode]
  · intro p
    simp [clearMaskAtPoint, hmode]
  · intro key hkey hx
    by_cases hm : key.modifierPressed = true
    · simp [keyPressed, hm, hx, hkey, clearMaskAtPoint, hmode]
    · simp [keyPressed, hm, hkey, deleteLayerAtPoint, hmode]

/-- C21 on the code: outside edit mode, with the layer at address 0 selected and
dragged, the shortcut `]` with the modifier key held moves that layer one
position up in the stack, and `mouseReleased` at `(15, 18)` translates it by
`(5, 8)`. -/
theorem handlers_mutate_outside_edit :
    examplePresenting.mode = Mode.PRESENT ∧
    examplePresenting.layers = [some 0, some 1, some 2] ∧
    (keyPressed exactOps exampleApi exampleKeyEnv examplePresenting
        { key := 93, modifierPressed := true, shiftPressed := false,
          mouseX := some 0, mouseY := some 0 }).map (fun Q => Q.layers) =
      some [some 1, some 0, some 2] ∧
    (examplePresenting.heap 0).calls = [] ∧
    ((mouseReleased exactOps exampleApi examplePresenting ⟨some 15, some 18⟩).heap 0).calls =
      [LayerCall.translate ⟨some 5, some 8, some 0⟩] := by
  refine ⟨rfl, rfl, ?_, rfl, ?_⟩
  · rfl
  · rfl

/-- On a stack that is not empty, holds no empty pointer and whose layers all have
an id other than the id of `L`, `shiftLayer(L, shift)` leaves the stack as it is,
in each of the four directions. -/
theorem shiftLayers_absent {F : Type} (heap : Addr → Layer F) (as : List Addr) (L : Addr)
    (shift : LayerShift) (hne : as ≠ [])
    (habs : ∀ a ∈ as, (heap a).id ≠ (heap L).id) :
    shiftLayers heap (as.map some) (some L) shift = some (as.map some) := by
  have hno : ∀ e ∈ as.map some, matchesId heap e L = false := by
    intro e he
    simp only [List.mem_map] at he
    obtain ⟨a, ha, rfl⟩ := he
    simp [matchesId_some, habs a ha]
  cases shift with
  | LAYER_SHIFT_UP =>
    rcases List.eq_nil_or_concat as with h | ⟨front, z, h⟩
    · exact absurd h hne
    · rw [List.concat_eq_append] at h
      subst h
      have hfront : ∀ e ∈ front.map some, matchesId heap e L = false := by
        intro e he
        apply hno
        simp only [List.map_append, List.mem_append]
        exact Or.inl he
      simp only [shiftLayers, List.map_append, List.map_cons, List.map_nil, if_true]
      rw [shiftUpLoop_last heap L _ _ hfront]
      simp
  | LAYER_SHIFT_DOWN =>
    cases as with
    | nil => exact absurd rfl hne
    | cons a rest =>
      simp only [shiftLayers, List.map_cons]
      simp only [reduceCtorEq, if_false, if_true, Option.some_bind]
      rw [shiftDownLoop_nomatch heap L _ _
        (fun e he => hno e (by simp only [List.map_cons, List.mem_cons]; exact Or.inr he))]
  | LAYER_SHIFT_TOP =>
    rcases List.eq_nil_or_concat as with h | ⟨front, z, h⟩
    · exact absurd h hne
    · rw [List.concat_eq_append] at h
      subst h
      have hlast : ((front ++ [z]).map some).getLast? = some (some z) := by
        simp [List.getLast?_append]
      have hz : (heap L).id ≠ (heap z).id := fun h => habs z (by simp) h.symm
      simp only [shiftLayers]
      simp only [reduceCtorEq, if_false, if_true, Option.some_bind, hlast]
      rw [if_pos hz, eraseLoop_nomatch heap L _ hno]
  | LAYER_SHIFT_BOTTOM =>
    cases as with
    | nil => exact absurd rfl hne
    | cons a rest =>
      have ha : (heap L).id ≠ (heap a).id := fun h => habs a (by simp) h.symm
      have hera := eraseLoop_nomatch heap L _ hno
      simp only [List.map_cons] at hera
      simp only [shiftLayers]
      simp only [reduceCtorEq, if_false, if_true, Option.some_bind, List.map_cons,
        List.head?_cons]
      rw [if_pos ha, hera]

/-- C22 on the code: on the empty stack, `shiftLayer(layer, shift)` with a layer
that is not the empty pointer reads outside the deque in each of the four
directions, `*iter` past the end for `LAYER_SHIFT_UP` and `LAYER_SHIFT_DOWN`,
`_layers[_layers.size() - 1]` for `LAYER_SHIFT_TOP` and `_layers[0]` for
`LAYER_SHIFT_BOTTOM`. -/
theorem shiftLayer_empty_stack {F : Type} (P : Project F) (layer : Addr)
    (shift : LayerShift) :
    shiftLayers P.heap [] (some layer) shift = none ∧
    shiftLayer { P with layers := [] } (some layer) shift = none := by
  cases shift <;> exact ⟨rfl, rfl⟩

/-- The loop of `fromJSON` appends, in order, one layer for each element on which
`Layer::fromJSON` succeeds, at the address allocated for that element. -/
theorem fromJSONLoop_layers {F : Type} (host : Host F) (alloc : Nat → Addr)
    (items : List JsonValue) (i : Nat) (P : Project F) :
    (fromJSONLoop host alloc i items P).layers =
      P.layers ++ (items.enumFrom i).filterMap fun e =>
        (host.layerFromJSON e.2 (host.newLayer (alloc e.1))).map fun _ => some (alloc e.1) := by
  induction items generalizing i P with
  | nil => simp [fromJSONLoop]
  | cons j rest ih =>
    simp only [fromJSONLoop, List.enumFrom_cons, List.filterMap_cons]
    cases h : host.layerFromJSON j (host.newLayer (alloc i)) with
    | none => simp [ih]
    | some l => simp [ih]

/-- With distinct addresses for distinct allocations, the loop of `fromJSON` leaves
at the address of each element that deserializes the layer deserialized from
it. -/
theorem fromJSONLoop_heap {F : Type} (host : Host F) (alloc : Nat → Addr)
    (hinj : Function.Injective alloc) (items : List JsonValue) (i : Nat) (P : Project F)
    (k : Nat) (j : JsonValue) (l : Layer F) (hk : items[k]? = some j)
    (hl : host.layerFromJSON j (host.newLayer (alloc (i + k))) = some l) :
    (fromJSONLoop host alloc i items P).heap (alloc (i + k)) = l := by
  induction items generalizing i P k with
  | nil => simp at hk
  | cons j0 rest ih =>
    cases k with
    | zero =>
      simp only [List.getElem?_cons_zero, Option.some.injEq] at hk
      subst hk
      simp only [Nat.add_zero] at hl ⊢
      simp only [fromJSONLoop, hl]
      rw [fromJSONLoop_heap_other host alloc rest (i + 1) _ (alloc i)
        (fun m hm h => by have := hinj h; omega)]
      simp
    | succ k =>
      simp only [List.getElem?_cons_succ] at hk
      have hl2 : host.layerFromJSON j (host.newLayer (alloc (i + 1 + k))) = some l := by
        rw [show i + 1 + k = i + (k + 1) by omega]
        exact hl
      simp only [fromJSONLoop]
      rw [show i + (k + 1) = i + 1 + k by omega]
      cases host.layerFromJSON j0 (host.newLayer (alloc i)) with
      | none => exact ih (i + 1) P k hk hl2
      | some l0 => exact ih (i + 1) _ k hk hl2

/-- C23, as amended. For a document that is `null` or an object whose member
`layers` is missing or an array, `Project::fromJSON` returns true; with an array
it leaves the previous stack followed by one layer for each element on which
`Layer::fromJSON` succeeds, in document order, an element on which it fails being
skipped, and without the key `layers` it leaves the project unchanged. -/
theorem fromJSON_layers_array {F : Type} (host : Host F) (P : Project F)
    (alloc : Nat → Addr) (members : List (String × JsonValue)) :
    (∀ items, JsonValue.lookup "layers" members = some (JsonValue.array items) →
      ∃ Q, fromJSON host (JsonValue.object members) P alloc = some (true, Q) ∧
        Q.layers = P.layers ++ items.enum.filterMap (fun e =>
          (host.layerFromJSON e.2 (host.newLayer (alloc e.1))).map
            fun _ => some (alloc e.1)) ∧
        (Function.Injective alloc → ∀ (k : Nat) (j : JsonValue) (l : Layer F),
          items[k]? = some j → host.layerFromJSON j (host.newLayer (alloc k)) = some l →
          Q.heap (alloc k) = l)) ∧
    (JsonValue.lookup "layers" members = none →
      fromJSON host (JsonValue.object members) P alloc = some (true, P)) ∧
    fromJSON host JsonValue.null P alloc = some (true, P) := by
  refine ⟨?_, ?_, ?_⟩
  · intro items hitems
    refine ⟨fromJSONLoop host alloc 0 items P, ?_, ?_, ?_⟩
    · simp [fromJSON, JsonValue.isMember, JsonValue.get, hitems]
    · exact fromJSONLoop_layers host alloc items 0 P
    · intro hinj k j l hk hl
      have := fromJSONLoop_heap host alloc hinj items 0 P k j l hk (by simpa using hl)
      simpa using this
  · intro hnone
    simp [fromJSON, JsonValue.isMember, hnone]
  · simp [fromJSON, JsonValue.isMember]

/-- The amended C23 on the example project: of the three elements of the array
`layers` the second one does not deserialize, and the stack `[0, 1, 2]` is
followed by the layers of the first and of the third element, at the addresses 10
and 12. -/
theorem fromJSON_layers_array_witness :
    ∃ Q, fromJSON exampleHost
        (JsonValue.object [("layers", JsonValue.array
          [JsonValue.number 7, JsonValue.string "bad", JsonValue.number 9])])
        exampleProject (fun k => k + 10) = some (true, Q) ∧
      Q.layers = exampleProject.layers ++
        [JsonValue.number 7, JsonValue.string "bad", JsonValue.number 9].enum.filterMap
          (fun e => (exampleHost.layerFromJSON e.2 (exampleHost.newLayer (e.1 + 10))).map
            fun _ => some (e.1 + 10)) ∧
      Q.layers = [some 0, some 1, some 2, some 10, some 12] :=
  have h := (fromJSON_layers_array exampleHost exampleProject (fun k => k + 10)
    [("layers", JsonValue.array
      [JsonValue.number 7, JsonValue.string "bad", JsonValue.number 9])]).1
    [JsonValue.number 7, JsonValue.string "bad", JsonValue.number 9] rfl
  match h with
  | ⟨Q, h1, h2, _⟩ => ⟨Q, h1, h2, by rw [h2]; rfl⟩

/-- C23 fails on the code: on the document `{"layers": {"a": 1}}` the member
`layers` is an object of size 1, the loop of `fromJSON` reads `layers[0]`, which
`Json::Value` defines on arrays only, and `fromJSON` does not return. -/
theorem fromJSON_layers_object_counterexample :
    (JsonValue.object [("layers", JsonValue.object [("a", JsonValue.number 1)])]).isMember
      "layers" = some true ∧
    (JsonValue.object [("a", JsonValue.number 1)]).size = 1 ∧
    (JsonValue.object [("a", JsonValue.number 1)]).index 0 = none ∧
    (fromJSON exampleHost
        (JsonValue.object [("layers", JsonValue.object [("a", JsonValue.number 1)])])
        exampleProject (fun k => k + 10)).isSome = false := by
  refine ⟨rfl, rfl, rfl, rfl⟩

/-- On two paths with the same directories and the same file name the loop of
`makeRelativeToProjectFolder` removes every directory and then finds the two
file names equal: `popFrontDirectory` is called on a path without
directories. -/
theorem stripLoop_same (name : String) (dirs : List String) :
    stripLoop name name dirs dirs = none := by
  induction dirs with
  | nil => simp [stripLoop]
  | cons d dirs ih => simp [stripLoop, ih]

/-- The directory comparison accepts a path against itself. -/
theorem dirs_all_same (p : Path) :
    ((List.range p.depth).all fun i =>
      if i < p.depth then decide (p.directory i = p.directory i) else true) = true := by
  simp

/-- C24 on the code: for the project folder itself `isFileInProjectFolder` is
true, and the loop of `makeRelativeToProjectFolder` pops the front directory of
a path that has no directory left, so that the call has no result; the same
holds for `SimpleApp::makeRelativeToUserProjectsFolder` on the user projects
folder itself. -/
theorem makeRelative_of_folder_itself {F : Type} (host : Host F) (P : Project F)
    (current userProjectsPath : Path) :
    isFileInProjectFolder host P P.path = true ∧
    stripLoop (Path.makeAbsolute host.currentDirectory P.path).name
      (Path.makeAbsolute host.currentDirectory P.path).name
      (Path.makeAbsolute host.currentDirectory P.path).dirs
      (Path.makeAbsolute host.currentDirectory P.path).dirs = none ∧
    makeRelativeToProjectFolder host P P.path = none ∧
    isFileInUserProjectsFolder current userProjectsPath userProjectsPath = true ∧
    makeRelativeToUserProjectsFolder current userProjectsPath userProjectsPath = none := by
  have h1 : isFileInProjectFolder host P P.path = true := by
    simp [isFileInProjectFolder]
  have h2 : isFileInUserProjectsFolder current userProjectsPath userProjectsPath = true := by
    simp [isFileInUserProjectsFolder]
  refine ⟨h1, stripLoop_same _ _, ?_, h2, ?_⟩
  · simp only [makeRelativeToProjectFolder, h1, if_true, stripLoop_same]
  · simp only [makeRelativeToUserProjectsFolder, h2, if_true, stripLoop_same]

/-- For every numbering with distinct values, `_getButton(type)` with a type other
than `BUTTON_OPEN_PROJECT` does not depend on `type`: it is the button
`_newProjectButton`, and the button `_saveProjectButton` when the value of
`BUTTON_NEW_PROJECT` is zero.  It is never the button `_toolScaleButton`. -/
theorem getButton_ignores_type (value : UIButtonType → Int)
    (hinj : Function.Injective value) (type : UIButtonType)
    (htype : type ≠ UIButtonType.BUTTON_OPEN_PROJECT) :
    _getButton value type =
        (if value UIButtonType.BUTTON_NEW_PROJECT ≠ 0 then some ButtonMember.newProjectButton
          else some ButtonMember.saveProjectButton) ∧
      _getButton value type ≠ some ButtonMember.toolScaleButton ∧
      _getButton value UIButtonType.BUTTON_TOOL_SCALE ≠ some ButtonMember.toolScaleButton := by
  have hne : ∀ t, t ≠ UIButtonType.BUTTON_OPEN_PROJECT →
      value t ≠ value UIButtonType.BUTTON_OPEN_PROJECT := fun t ht h => ht (hinj h)
  have hres : ∀ t, t ≠ UIButtonType.BUTTON_OPEN_PROJECT → _getButton value t =
      (if value UIButtonType.BUTTON_NEW_PROJECT ≠ 0 then some ButtonMember.newProjectButton
        else some ButtonMember.saveProjectButton) := by
    intro t ht
    by_cases hnew : value UIButtonType.BUTTON_NEW_PROJECT = 0
    · have hsave : value UIButtonType.BUTTON_SAVE_PROJECT ≠ 0 := by
        intro h
        have := hinj (hnew.trans h.symm)
        cases this
      simp [_getButton, hne t ht, hnew, hsave]
    · simp [_getButton, hne t ht, hnew]
  refine ⟨hres type htype, ?_, ?_⟩
  · rw [hres type htype]
    split_ifs <;> simp
  · rw [hres _ (by decide)]
    split_ifs <;> simp

/-- C25 on the code, with the enumerators numbered from 0 in the order of the
constructor: `_getButton(BUTTON_TOOL_SCALE)` is the button `_newProjectButton`,
`getUIButtonSelectState(BUTTON_TOOL_SCALE)` reads that button, and
`setUIButtonSelectState(BUTTON_TOOL_SCALE, true)` and
`toggleUIButtonState(BUTTON_TOOL_SCALE)` select it and leave the button
`_toolScaleButton` as it was. -/
theorem getButton_ignores_type_witness :
    Function.Injective exampleButtonValue ∧
    _getButton exampleButtonValue UIButtonType.BUTTON_TOOL_SCALE =
      some ButtonMember.newProjectButton ∧
    getUIButtonSelectState exampleButtonValue
      (fun b => decide (b = ButtonMember.toolScaleButton)) UIButtonType.BUTTON_TOOL_SCALE =
      some false ∧
    (setUIButtonSelectState exampleButtonValue (fun _ => false)
        UIButtonType.BUTTON_TOOL_SCALE true).map
      (fun s => (s ButtonMember.toolScaleButton, s ButtonMember.newProjectButton)) =
      some (false, true) ∧
    (toggleUIButtonState exampleButtonValue (fun _ => false)
        UIButtonType.BUTTON_TOOL_SCALE).map
      (fun s => (s ButtonMember.toolScaleButton, s ButtonMember.newProjectButton)) =
      some (false, true) ∧
    _getButton exampleButtonValue UIButtonType.BUTTON_TOOL_SCALE ≠
      some ButtonMember.toolScaleButton :=
  have hinj : Function.Injective exampleButtonValue := by
    intro a b h
    cases a <;> cases b <;> first | rfl | (exfalso; revert h; decide)
  ⟨hinj, rfl, rfl, rfl, rfl,
    (getButton_ignores_type exampleButtonValue hinj UIButtonType.BUTTON_TOOL_SCALE
      (by decide)).2.2⟩

end Kibio
